import Mathlib

/-!
Verification of the carbon-emission tracking application's core subsystems
(document store and record cache), shallowly embedded from the Python source
(`data.py`, with the `main.py` variant where a claim refers to it).

Modelling conventions:
* Python floats are modelled as exact decimal fixed-point numbers (`Dec`: an
  integer mantissa over a power-of-ten denominator).  Every numeric value the
  program manipulates (decimal literals entered by users or read back from
  `NUMERIC(18,4)` columns, products of such, powers of ten from exponents) is
  such a number; binary floating-point drift and overflow to infinity are
  outside the model.  `Dec.toQ` maps a `Dec` to the rational it denotes.
* `str(float)` is modelled by `floatStr`, the exact shortest decimal
  expansion with `.0` appended to whole numbers — which is what Python's
  `repr` prints for the decimal-valued floats this application handles
  (scientific notation for extreme magnitudes is outside the model).
* `float(s)` applied to a user-entered string is modelled by `pyFloatVal`,
  covering finite decimal literals with optional sign, fraction and exponent
  and surrounding ASCII whitespace (the `inf`/`nan` literals and numeric
  underscores accepted by Python are outside the modelled grammar).
* The MSSQL backing table is modelled by `Store`: an ordered list of rows
  plus the `IDENTITY(1,1)` counter.  `NUMERIC(18,4)` columns hold scale-4
  scaled integers: conversion rounds half away from zero (`quant4man`) and
  pyodbc renders them back as scale-4 decimal strings (`fmtScale4`).
* GUI message boxes are modelled as result codes; connection failures and
  statement failures are modelled by `Option`/`Bool` parameters.
-/

/-! ### Decimal rendering of natural numbers (`str` of an `int`, f-string digits) -/

/-- The decimal digit character for `n % 10`. -/
def digChar (n : ℕ) : Char := Char.ofNat (48 + n % 10)

/-- Fuel-driven accumulator loop producing the decimal digits of `n`
(most significant first), prepended to `acc`.  Fuel `n + 1` always
suffices. -/
def natDecAuxF : ℕ → ℕ → List Char → List Char
  | 0, _, acc => acc
  | f + 1, n, acc =>
    if n / 10 = 0 then digChar n :: acc
    else natDecAuxF f (n / 10) (digChar n :: acc)

/-- The decimal digit list of `n`, e.g. `natDecL 254` = `['2','5','4']`. -/
def natDecL (n : ℕ) : List Char := natDecAuxF (n + 1) n []

/-- The decimal string of `n` (the rendering used by Python's `str`/f-strings
for nonnegative integers). -/
def natDec (n : ℕ) : String := ⟨natDecL n⟩

/-- Numeric value of a decimal digit list (each char is assumed a digit). -/
def decval (l : List Char) : ℕ := l.foldl (fun a c => 10 * a + (c.toNat - 48)) 0

/-- `n` rendered in decimal and left-padded with zeros to at least `k`
characters (the digit part of `%02d`-style formatting). -/
def padZeros (k n : ℕ) : List Char :=
  List.replicate (k - (natDecL n).length) '0' ++ natDecL n

/-! ### Exact decimal numbers -/

/-- An exact decimal number `man / 10 ^ exp`: the value space of the floats
manipulated by this program. -/
structure Dec where
  man : ℤ
  exp : ℕ
deriving DecidableEq, Repr

/-- The rational denoted by a `Dec`. -/
def Dec.toQ (a : Dec) : ℚ := (a.man : ℚ) / 10 ^ a.exp

/-- Exact product of two decimals (`factor * v` on Python floats). -/
def Dec.mul (a b : Dec) : Dec := ⟨a.man * b.man, a.exp + b.exp⟩

/-- Negation. -/
def Dec.neg (a : Dec) : Dec := ⟨-a.man, a.exp⟩

/-- An integer as a decimal. -/
def Dec.ofInt (n : ℤ) : Dec := ⟨n, 0⟩

/-- Drop trailing zero digits of the mantissa (fuel-driven; fuel `exp`
suffices), keeping the denoted value: the canonical form that `str(float)`
prints. -/
def decNormLoop : ℕ → ℤ → ℕ → Dec
  | 0, m, e => ⟨m, e⟩
  | f + 1, m, e =>
    if e = 0 then ⟨m, 0⟩
    else if m % 10 = 0 then decNormLoop f (m / 10) (e - 1)
    else ⟨m, e⟩

/-- Canonical (trailing-zero-free) form of a decimal. -/
def Dec.norm (a : Dec) : Dec := decNormLoop a.exp a.man a.exp

/-! ### Rounding and fixed-point formatting -/

/-- Round `N / D` (with `D > 0`) to the nearest integer, ties to even: the
rounding CPython applies when formatting a float with `f"{x:.2f}"`. -/
def rheInt (N D : ℤ) : ℤ :=
  let f := N / D
  let r := N % D
  if 2 * r < D then f
  else if D < 2 * r then f + 1
  else if f % 2 = 0 then f else f + 1

/-- Specification-level round-half-to-even on a rational. -/
def rheQ (q : ℚ) : ℤ :=
  if q - ⌊q⌋ < 1 / 2 then ⌊q⌋
  else if 1 / 2 < q - ⌊q⌋ then ⌊q⌋ + 1
  else if ⌊q⌋ % 2 = 0 then ⌊q⌋ else ⌊q⌋ + 1

/-- Round `m / D` (with `D > 0` even) to the nearest integer, ties away from
zero: the rounding SQL Server applies when converting to `NUMERIC`. -/
def roundAwayDiv (m D : ℤ) : ℤ :=
  if 0 ≤ m then (m + D / 2) / D else -((-m + D / 2) / D)

/-- The scale-4 scaled integer stored by a `NUMERIC(18,4)` column receiving
the value `a` (rounds half away from zero beyond four decimals). -/
def quant4man (a : Dec) : ℤ :=
  if a.exp ≤ 4 then a.man * 10 ^ (4 - a.exp)
  else roundAwayDiv a.man (10 ^ (a.exp - 4))

/-- `f"{q:.2f}"`: fixed two-fractional-digit rendering with
round-half-to-even. -/
def formatTwo (a : Dec) : String :=
  let n := (rheInt ((a.man.natAbs : ℤ) * 100) (10 ^ a.exp)).toNat
  ⟨(if a.man < 0 then ['-'] else []) ++ natDecL (n / 100) ++ '.' :: padZeros 2 (n % 100)⟩

/-- `str` of the scale-4 `decimal.Decimal` holding `m / 10^4`, as returned by
pyodbc for a `NUMERIC(18,4)` column: always exactly four fractional
digits. -/
def fmtScale4 (m : ℤ) : String :=
  ⟨(if m < 0 then ['-'] else []) ++
    natDecL (m.natAbs / 10000) ++ '.' :: padZeros 4 (m.natAbs % 10000)⟩

/-! ### The `float(...)` parser (`pyFloatVal`) -/

/-- The ASCII whitespace stripped by `float()`/`str.strip()`. -/
def isPySpace (c : Char) : Bool :=
  c = ' ' || c = '\t' || c = '\n' || c = '\r' || c = '\x0b' || c = '\x0c'

/-- Strip leading and trailing whitespace from a character list. -/
def pyStrip (l : List Char) : List Char :=
  ((l.dropWhile isPySpace).reverse.dropWhile isPySpace).reverse

/-- `str.strip()` on a string. -/
def stripStr (s : String) : String := ⟨pyStrip s.data⟩

/-- Consume an optional leading sign: `true` for `'-'`, `false` otherwise,
together with what remains. -/
def splitSign (l : List Char) : Bool × List Char :=
  match l with
  | [] => (false, [])
  | c :: t =>
    if c = '-' then (true, t) else if c = '+' then (false, t) else (false, c :: t)

/-- Parse the optional exponent suffix (`e`/`E`, optional sign, digits) and
apply it to the mantissa `m`; any other trailing junk rejects the input. -/
def parseExpPart (m : Dec) (l : List Char) : Option Dec :=
  match l with
  | [] => some m
  | c :: t =>
    if c = 'e' || c = 'E' then
      let p := splitSign t
      let ds := p.2.takeWhile Char.isDigit
      let rest := p.2.dropWhile Char.isDigit
      if ds.isEmpty || !rest.isEmpty then none
      else some (if p.1 then ⟨m.man, m.exp + decval ds⟩
                 else ⟨m.man * 10 ^ decval ds, m.exp⟩)
    else none

/-- Parse a stripped decimal float literal: optional sign, integer digits,
optional fraction, optional exponent; at least one digit is required. -/
def pyFloatAux (l : List Char) : Option Dec :=
  let p := splitSign l
  let ip := p.2.takeWhile Char.isDigit
  let l2 := p.2.dropWhile Char.isDigit
  let sgn : Dec → Dec := fun d => if p.1 then d.neg else d
  match l2 with
  | [] =>
    if ip.isEmpty then none
    else parseExpPart (sgn ⟨(decval ip : ℤ), 0⟩) []
  | c :: t =>
    if c = '.' then
      let fp := t.takeWhile Char.isDigit
      let l3 := t.dropWhile Char.isDigit
      if ip.isEmpty && fp.isEmpty then none
      else
        parseExpPart (sgn ⟨(decval ip : ℤ) * 10 ^ fp.length + decval fp, fp.length⟩) l3
    else
      if ip.isEmpty then none
      else parseExpPart (sgn ⟨(decval ip : ℤ), 0⟩) (c :: t)

/-- `float(s)` for a finite decimal literal `s`, as an exact decimal;
`none` models the `ValueError` raised on a non-parsing string. -/
def pyFloatVal (s : String) : Option Dec := pyFloatAux (pyStrip s.data)

/-- `str(x)` for a float `x` holding the exact decimal `a`: sign, the
shortest decimal expansion, and `.0` appended to whole numbers. -/
def floatStr (a : Dec) : String :=
  let n := a.norm
  let v := n.man.natAbs
  if n.exp = 0 then
    ⟨(if n.man < 0 then ['-'] else []) ++ natDecL v ++ ['.', '0']⟩
  else
    ⟨(if n.man < 0 then ['-'] else []) ++
      natDecL (v / 10 ^ n.exp) ++ '.' :: padZeros n.exp (v % 10 ^ n.exp)⟩

/-! ### The total-derivation helper (`update_total_value`, data.py lines 165-170)

```python
def update_total_value(factor, value_str):
    try:
        v = float(value_str)
        return f"{factor * v:.2f}"
    except:
        return "0.00"
```

The bare `except` makes the helper total: it never raises, which the
embedding reflects by being a total function. -/
def update_total_value (factor : Dec) (value_str : String) : String :=
  match pyFloatVal value_str with
  | some v => formatTwo (factor.mul v)
  | none => "0.00"

/-! ### Date parsing (`datetime.strptime(s, "%Y-%m-%d")`) and formatting -/

/-- A calendar date as held by a `datetime` object. -/
structure PyDate where
  year : ℕ
  month : ℕ
  day : ℕ
deriving DecidableEq, Repr

/-- Gregorian leap-year rule used by `datetime`. -/
def isLeapYear (y : ℕ) : Bool := (y % 4 = 0 && y % 100 ≠ 0) || y % 400 = 0

/-- Number of days of month `m` in year `y`. -/
def daysInMonth (y m : ℕ) : ℕ :=
  if m = 2 then (if isLeapYear y then 29 else 28)
  else if m = 4 || m = 6 || m = 9 || m = 11 then 30
  else 31

/-- Split a character list at every occurrence of `c` (Python
`str.split(c)` semantics: `n` separators yield `n + 1` pieces). -/
def splitOnChar (c : Char) : List Char → List (List Char)
  | [] => [[]]
  | x :: xs =>
    match splitOnChar c xs with
    | [] => [[]]
    | h :: t => if x = c then [] :: h :: t else (x :: h) :: t

/-- Every character is a decimal digit. -/
def allDigits (l : List Char) : Bool := l.all Char.isDigit

/-- `datetime.strptime(s, "%Y-%m-%d")`: CPython's `%Y` matches exactly four
digits, `%m` and `%d` one or two digits bounded by 12 resp. 31, nothing may
remain unmatched, and the `datetime` constructor then validates the day
against the month length and rejects year 0. -/
def parseDate (s : String) : Option PyDate :=
  match splitOnChar '-' s.data with
  | [ys, ms, ds] =>
    if allDigits ys && ys.length = 4 &&
       allDigits ms && 1 ≤ ms.length && ms.length ≤ 2 &&
       allDigits ds && 1 ≤ ds.length && ds.length ≤ 2 then
      let y := decval ys
      let m := decval ms
      let d := decval ds
      if 1 ≤ y && 1 ≤ m && m ≤ 12 && 1 ≤ d && d ≤ daysInMonth y m then
        some ⟨y, m, d⟩
      else none
    else none
  | _ => none

/-- `dt.strftime("%Y-%m-%d")` (glibc: the year is printed unpadded; all
dates this program produces have four-digit years). -/
def dateStr (d : PyDate) : String :=
  ⟨natDecL d.year ++ '-' :: (padZeros 2 d.month ++ '-' :: padZeros 2 d.day)⟩

/-- English month name (`strftime("%B")`). -/
def monthName (m : ℕ) : String :=
  match m with
  | 1 => "January" | 2 => "February" | 3 => "March" | 4 => "April"
  | 5 => "May" | 6 => "June" | 7 => "July" | 8 => "August"
  | 9 => "September" | 10 => "October" | 11 => "November" | 12 => "December"
  | _ => ""

/-! ### Document management system (data.py lines 346-393)

`DocumentManagementSystem.generate_unique_code`, `get_storage_path` and
`save_document`.  The filesystem is modelled as the list of stored file
paths; `os.path.exists` is membership, `shutil.copy` prepends the
destination path.  The wall-clock `upload_date_time` field of the metadata
dictionary is outside the model. -/

/-- The code built for a successfully parsed date:
`f"{unit_name}_{dt.strftime('%d_%m_%Y')}_{emission_name}_{emission_type}"`. -/
def uniqueCodeOf (unit_name : String) (d : PyDate)
    (emission_name emission_type : String) : String :=
  unit_name ++ "_" ++ ⟨padZeros 2 d.day⟩ ++ "_" ++ ⟨padZeros 2 d.month⟩ ++ "_" ++
    natDec d.year ++ "_" ++ emission_name ++ "_" ++ emission_type

/-- `DocumentManagementSystem.generate_unique_code`; `none` models the
`ValueError` propagated out of `strptime`. -/
def generate_unique_code (unit_name upload_date emission_name emission_type :
    String) : Option String :=
  match parseDate upload_date with
  | none => none
  | some d => some (uniqueCodeOf unit_name d emission_name emission_type)

/-- The folder `os.path.join(BASE_DIR, unit_name, dt.strftime("%Y"), dt.strftime("%m_%B"))`. -/
def storagePathOf (base unit_name : String) (d : PyDate) : String :=
  base ++ "/" ++ unit_name ++ "/" ++ natDec d.year ++ "/" ++
    ⟨padZeros 2 d.month⟩ ++ "_" ++ monthName d.month

/-- `DocumentManagementSystem.get_storage_path` (the `os.makedirs` side
effect is idempotent directory creation, not modelled). -/
def get_storage_path (base unit_name upload_date : String) : Option String :=
  match parseDate upload_date with
  | none => none
  | some d => some (storagePathOf base unit_name d)

/-- The basename: characters after the last `'/'`. -/
def afterLastSlash (l : List Char) : List Char :=
  l.foldl (fun acc c => if c = '/' then [] else acc ++ [c]) []

/-- `os.path.splitext(fp)[1]`: the extension starts at the last dot of the
basename, provided some earlier character of the basename is not a dot
(so dotfiles like `.bashrc` have no extension). -/
def splitextExt (fp : String) : String :=
  let base := afterLastSlash fp.data
  let r := base.reverse
  let tail := r.takeWhile (fun c => c ≠ '.')
  match r.dropWhile (fun c => c ≠ '.') with
  | [] => ""
  | _ :: pre => if pre.any (fun c => c ≠ '.') then ⟨'.' :: tail.reverse⟩ else ""

/-- The candidate path probed at version `v`: the bare
`<folder>/<code><ext>` for `v = 1`, and `<folder>/<code>_v<v><ext>` from
`v = 2` on. -/
def candPath (folder code ext : String) (v : ℕ) : String :=
  if v = 1 then folder ++ "/" ++ code ++ ext
  else folder ++ "/" ++ code ++ "_v" ++ natDec v ++ ext

/-- The `while os.path.exists(final)` probing loop of `save_document`,
returning the first version `≥ v` whose candidate path is not on disk.
Fuel `fs.length + 1` always suffices because candidate paths are pairwise
distinct. -/
def probeLoop (fs : List String) (folder code ext : String) : ℕ → ℕ → ℕ
  | 0, v => v
  | f + 1, v =>
    if candPath folder code ext v ∈ fs then probeLoop fs folder code ext f (v + 1)
    else v

/-- The metadata dictionary appended to `document_logs` and returned. -/
structure DocMeta where
  unique_code : String
  file_path : String
  uploader : String
  role : String
  unit_name : String
  upload_date : String
  emission_name : String
  emission_type : String
  file_status : String
  version : ℕ
deriving DecidableEq, Repr

/-- `DocumentManagementSystem.save_document`: compute code and folder,
probe version suffixes until a free path is found, copy the file there and
return the metadata.  `none` models the `ValueError` from an invalid
date. -/
def save_document (fs : List String) (base fp unit_name upload_date
    emission_name emission_type uploader role : String) :
    Option (DocMeta × List String) :=
  match parseDate upload_date with
  | none => none
  | some d =>
    let code := uniqueCodeOf unit_name d emission_name emission_type
    let folder := storagePathOf base unit_name d
    let ext := splitextExt fp
    let version := probeLoop fs folder code ext (fs.length + 1) 1
    let final := candPath folder code ext version
    some ({ unique_code := code, file_path := final, uploader := uploader,
            role := role, unit_name := unit_name, upload_date := upload_date,
            emission_name := emission_name, emission_type := emission_type,
            file_status := "Stored Locally", version := version }, final :: fs)

/-! ### The record cache (module-level `emission_records` / `record_id_counter`)

A cached record is the 14-tuple
`(email, entry_date, month, year, company_unit, emission_category,
emission_name, emission_type, factor, value, total, remarks, document,
record_id)`; all numeric fields are held as strings in the tuple, the id as
an integer. -/

structure EmissionRecord where
  email : String
  entry_date : String
  month : String
  year : String
  company_unit : String
  emission_category : String
  emission_name : String
  emission_type : String
  factor : String
  value : String
  total : String
  remarks : String
  document : String
  record_id : ℕ
deriving DecidableEq, Repr

/-- The module-level mutable state: the `emission_records` list and the
`record_id_counter` (initially `0`). -/
structure CacheState where
  records : List EmissionRecord
  counter : ℕ
deriving DecidableEq, Repr

/-- One row of the `EmissionRecords` table.  `record_id` is the
`IDENTITY(1,1)` primary key; `factor`, `value`, `total` are the scale-4
scaled integers held by the `NUMERIC(18,4)` columns; `entry_date` is the
`DATE` column, kept in its `%Y-%m-%d` rendering. -/
structure DBRow where
  email : String
  entry_date : String
  month : String
  year : String
  company_unit : String
  emission_category : String
  emission_name : String
  emission_type : String
  factor : ℤ
  value : ℤ
  total : ℤ
  remarks : String
  document : String
  record_id : ℕ
deriving DecidableEq, Repr

/-- The backing table plus the next value of its identity sequence
(`IDENTITY(1,1)` starts at 1 and never goes backwards). -/
structure Store where
  rows : List DBRow
  identity : ℕ
deriving DecidableEq, Repr

/-- Convert one cached record into the row inserted by
`save_emission_records`: the date is re-parsed and re-rendered, the three
numeric strings pass through `float(...)` and the `NUMERIC(18,4)` columns,
and the identity column assigns `rid`.  `none` models the per-row
`except ... continue`: a record whose date or numerics do not parse is
silently skipped. -/
def rowOfRecord (rid : ℕ) (r : EmissionRecord) : Option DBRow :=
  match parseDate r.entry_date, pyFloatVal r.factor, pyFloatVal r.value,
        pyFloatVal r.total with
  | some d, some f, some v, some t =>
    some { email := r.email, entry_date := dateStr d, month := r.month,
           year := r.year, company_unit := r.company_unit,
           emission_category := r.emission_category,
           emission_name := r.emission_name,
           emission_type := r.emission_type,
           factor := quant4man f, value := quant4man v, total := quant4man t,
           remarks := r.remarks, document := r.document, record_id := rid }
  | _, _, _, _ => none

/-- `save_emission_records` (data.py lines 273-305) with an established
connection: it iterates over the WHOLE in-memory list and executes one
`INSERT` per record (the insert column list omits `record_id`, so the
identity sequence assigns ids); a row whose conversion fails is skipped and
the loop continues. -/
def save_emission_records (recs : List EmissionRecord) (st : Store) : Store :=
  recs.foldl
    (fun s r =>
      match rowOfRecord s.identity r with
      | some row => { rows := s.rows ++ [row], identity := s.identity + 1 }
      | none => s)
    st

/-- Lexicographic comparison of the character lists of two strings: on the
fixed-width `%Y-%m-%d` renderings held by the `DATE` column this is exactly
chronological order. -/
def strLT (a b : String) : Bool := decide (a.data < b.data)

/-- The `ORDER BY entry_date DESC, record_id DESC` of the load query. -/
def rowLE (a b : DBRow) : Bool :=
  if a.entry_date = b.entry_date then decide (b.record_id ≤ a.record_id)
  else strLT b.entry_date a.entry_date

/-- Insert a row into a list sorted by `rowLE`. -/
def insertRow (row : DBRow) : List DBRow → List DBRow
  | [] => [row]
  | x :: xs => if rowLE row x then row :: x :: xs else x :: insertRow row xs

/-- Sort the fetched rows by `rowLE` (the `ORDER BY` of the load query). -/
def sortRows : List DBRow → List DBRow
  | [] => []
  | x :: xs => insertRow x (sortRows xs)

/-- Convert a fetched row back into a cached tuple: pyodbc renders the
`DATE` back through `strftime("%Y-%m-%d")`, `str(...)` of the scale-4
decimals gives four fractional digits, `row[11] or ""` maps a NULL remark
to the empty string (the model stores remarks as strings, so it is the
identity), and the id arrives as `str(row[13])`. -/
def recordOfRow (row : DBRow) : EmissionRecord :=
  { email := row.email, entry_date := row.entry_date, month := row.month,
    year := row.year, company_unit := row.company_unit,
    emission_category := row.emission_category,
    emission_name := row.emission_name, emission_type := row.emission_type,
    factor := fmtScale4 row.factor, value := fmtScale4 row.value,
    total := fmtScale4 row.total, remarks := row.remarks,
    document := row.document, record_id := row.record_id }

/-- `max(int(r[13]) for r in emission_records)` (the list is nonempty when
this is evaluated; on ℕ the fold from 0 agrees with Python's `max`). -/
def maxId (recs : List EmissionRecord) : ℕ :=
  (recs.map (fun r => r.record_id)).foldl Nat.max 0

/-- `load_emission_records` (data.py lines 307-343).  `conn = none` models
both a failed connection (`if not conn: return`) and a query that raises
(the `clear()` only happens after a successful `fetchall`): in either case
the function returns with the cache untouched.  On success the collection
is cleared and repopulated from the query result and the id counter is
recomputed as `max + 1` (only when the result is nonempty). -/
def load_emission_records (conn : Option Store) (st : CacheState) : CacheState :=
  match conn with
  | none => st
  | some s =>
    let recs := (sortRows s.rows).map recordOfRow
    { records := recs,
      counter := if recs.isEmpty then st.counter else maxId recs + 1 }

/-! ### Deleting and editing (`EmissionDataPage`, `EditDialog`, data.py) -/

/-- What the `delete_record` handler reports. -/
inductive DeleteOutcome
  | noConnection
  | success
deriving DecidableEq, Repr

/-- `EmissionDataPage.delete_record` (data.py lines 1145-1179) for a
confirmed deletion of the selected id: with a connection it issues
`DELETE ... WHERE record_id = ?`, filters the local list, and reports
success — whether or not any record with that id existed. -/
def delete_record (conn : Bool) (st : CacheState) (store : Store) (rid : ℕ) :
    CacheState × Store × DeleteOutcome :=
  if conn then
    ({ st with records := st.records.filter (fun r => r.record_id ≠ rid) },
     { store with rows := store.rows.filter (fun row => row.record_id ≠ rid) },
     DeleteOutcome.success)
  else (st, store, DeleteOutcome.noConnection)

/-- The lookup loop of `EmissionDataPage.edit_record` (data.py lines
1120-1143): find the record and its index by id; `none` triggers the
"Record not found" error and no edit dialog is opened. -/
def findRecord (recs : List EmissionRecord) (rid : ℕ) :
    Option (EmissionRecord × ℕ) :=
  (recs.zip (List.range recs.length)).find? (fun p => p.1.record_id = rid)

/-- The editable fields of the data.py `EditDialog` (the factor field is
read-only, so its text stays the record's factor string). -/
structure EditInputs where
  unit : String
  month : String
  year : String
  category : String
  ename : String
  etype : String
  value : String
  remarks : String
  document : String
deriving DecidableEq, Repr

/-- What `EditDialog.save_changes` reports. -/
inductive UpdateOutcome
  | parseError
  | badIndex
  | noConnection
  | storeError
  | success
deriving DecidableEq, Repr

/-- The updated 14-tuple built by data.py `EditDialog.save_changes`:
identity fields kept, edited fields taken from the dialog, the factor
re-rendered through `str(float(...))`, and the total re-derived by
`update_total_value`. -/
def updatedRecord (r : EmissionRecord) (f : Dec) (inp : EditInputs) :
    EmissionRecord :=
  { email := r.email, entry_date := r.entry_date, month := inp.month,
    year := inp.year, company_unit := inp.unit,
    emission_category := inp.category, emission_name := inp.ename,
    emission_type := inp.etype, factor := floatStr f, value := inp.value,
    total := update_total_value f inp.value, remarks := inp.remarks,
    document := inp.document, record_id := r.record_id }

/-- `EditDialog.save_changes` (data.py lines 1217-1277).  The flow is
store-first: `float(factor)` failing aborts before anything changes; a
missing connection returns; a failing `UPDATE` is caught and leaves the
local list untouched; only after a successful `UPDATE`+commit is
`emission_records[idx]` overwritten.  `execOK` models whether the `UPDATE`
statement succeeds (a non-numeric value string also makes the statement's
`NUMERIC` conversion fail). -/
def data_save_changes (st : CacheState) (conn : Option Store) (execOK : Bool)
    (idx : ℕ) (inp : EditInputs) :
    CacheState × Option Store × UpdateOutcome :=
  match st.records.get? idx with
  | none => (st, conn, UpdateOutcome.badIndex)
  | some r =>
    match pyFloatVal r.factor with
    | none => (st, conn, UpdateOutcome.parseError)
    | some f =>
      let upd := updatedRecord r f inp
      match conn with
      | none => (st, none, UpdateOutcome.noConnection)
      | some store =>
        match pyFloatVal upd.value, pyFloatVal upd.total, execOK with
        | some v, some t, true =>
          let rows := store.rows.map (fun row =>
            if row.record_id = r.record_id then
              { row with
                month := upd.month,
                year := upd.year,
                company_unit := upd.company_unit,
                emission_category := upd.emission_category,
                emission_name := upd.emission_name,
                emission_type := upd.emission_type,
                factor := quant4man f,
                value := quant4man v,
                total := quant4man t,
                remarks := upd.remarks,
                document := upd.document }
            else row)
          ({ st with records := st.records.set idx upd },
           some { store with rows := rows }, UpdateOutcome.success)
        | _, _, _ => (st, some store, UpdateOutcome.storeError)

/-! ### The main.py variant of the cache (records as 11-tuples on a JSON file)

main.py records are
`(email, entry_date, month, unit, category, name, factor, amount, total,
document, record_id)`; persistence is a whole-list JSON dump whose
exceptions are caught and logged. -/

structure MainRecord where
  email : String
  entry_date : String
  month : String
  unit : String
  category : String
  ename : String
  factor : String
  amount : String
  total : String
  document : String
  record_id : ℕ
deriving DecidableEq, Repr

/-- The editable fields of the main.py `EditDialog` (factor editable). -/
structure MainEditInputs where
  month : String
  unit : String
  category : String
  ename : String
  factor : String
  amount : String
  document : String
deriving DecidableEq, Repr

/-- The updated 11-tuple built by main.py `EditDialog.save_changes`. -/
def mainUpdatedRecord (orig : MainRecord) (f : Dec) (inp : MainEditInputs) :
    MainRecord :=
  { email := orig.email, entry_date := orig.entry_date, month := inp.month,
    unit := inp.unit, category := inp.category, ename := inp.ename,
    factor := inp.factor, amount := inp.amount,
    total := update_total_value f inp.amount, document := inp.document,
    record_id := orig.record_id }

/-- main.py `save_emission_records`: `json.dump` of the whole list inside a
`try/except` that only logs — the in-memory list is never touched, and a
disk failure is invisible to the caller.  The result is the disk file's new
content (`none` when the write failed and the old content remains). -/
def main_save_records_disk (diskOK : Bool) (recs : List MainRecord) :
    Option (List MainRecord) :=
  if diskOK then some recs else none

/-- main.py `EditDialog.save_changes` (lines 795-805): memory-first — the
in-memory list is overwritten at `rec_index` BEFORE `save_emission_records`
is called, so a disk failure leaves the new values in memory.  `none`
models `float(factor)` raising out of the handler (nothing changes). -/
def main_save_changes (recs : List MainRecord) (idx : ℕ)
    (inp : MainEditInputs) : Option (List MainRecord) :=
  match pyFloatVal inp.factor with
  | none => none
  | some f =>
    match recs.get? idx with
    | none => none
    | some orig => some (recs.set idx (mainUpdatedRecord orig f inp))

/-! ### The submission workflow (`DataEntryPage.submit_data_handler`,
data.py lines 1493-1576) -/

/-- The caller-context fields of a submission: the logged-in email, the
entry-date label, and the common form fields (as raw widget text). -/
structure SubmitCtx where
  email : String
  entry_date : String
  month : String
  year : String
  unit : String
deriving DecidableEq, Repr

/-- One fuel or refrigerant row of the entry form: the configured type name
and factor, and the raw widget texts of its amount, remarks and uploaded
file path. -/
structure FuelInput where
  name : String
  factor : Dec
  amount : String
  remarks : String
  file : String
deriving DecidableEq, Repr

/-- The single electricity row of the entry form. -/
structure ElecInput where
  factor : Dec
  amount : String
  remarks : String
  file : String
deriving DecidableEq, Repr

/-- The record tuple built for a fuel/refrigerant row with a nonempty
amount.  The total is read from the GUI total label, which the
`trace`-callback keeps equal to `update_total_value(factor, raw_amount)`;
the stored value is the stripped amount (both parse identically since
`float` ignores surrounding whitespace). -/
def mkFuelRecord (ctx : SubmitCtx) (category ename : String) (ft : FuelInput)
    (rid : ℕ) : EmissionRecord :=
  { email := ctx.email, entry_date := ctx.entry_date, month := ctx.month,
    year := ctx.year, company_unit := ctx.unit, emission_category := category,
    emission_name := ename, emission_type := ft.name,
    factor := floatStr ft.factor, value := stripStr ft.amount,
    total := update_total_value ft.factor ft.amount,
    remarks := stripStr ft.remarks, document := ft.file, record_id := rid }

/-- The record tuple built for a nonempty electricity amount (the total is
recomputed directly from the stripped value here). -/
def mkElecRecord (ctx : SubmitCtx) (e : ElecInput) (rid : ℕ) : EmissionRecord :=
  { email := ctx.email, entry_date := ctx.entry_date, month := ctx.month,
    year := ctx.year, company_unit := ctx.unit, emission_category := "Scope2",
    emission_name := "Electricity", emission_type := "Electricity",
    factor := floatStr e.factor, value := stripStr e.amount,
    total := update_total_value e.factor (stripStr e.amount),
    remarks := stripStr e.remarks, document := e.file, record_id := rid }

/-- The per-category collection loop: a record is built for every row with
a nonempty stripped amount, consuming `record_id_counter` values in form
order. -/
def buildFuelLoop (ctx : SubmitCtx) (category ename : String) :
    List FuelInput → ℕ → List EmissionRecord × ℕ
  | [], c => ([], c)
  | ft :: rest, c =>
    if stripStr ft.amount ≠ "" then
      let p := buildFuelLoop ctx category ename rest (c + 1)
      (mkFuelRecord ctx category ename ft c :: p.1, p.2)
    else buildFuelLoop ctx category ename rest c

/-- All records built by one submission (fuels, then refrigerants, then
electricity), together with the final counter value. -/
def submitNewRecords (ctx : SubmitCtx) (fuels refrigs : List FuelInput)
    (elec : ElecInput) (c : ℕ) : List EmissionRecord × ℕ :=
  let p1 := buildFuelLoop ctx "Scope1" "Fuel" fuels c
  let p2 := buildFuelLoop ctx "Scope1" "Refrigerants" refrigs p1.2
  if stripStr elec.amount ≠ "" then
    (p1.1 ++ (p2.1 ++ [mkElecRecord ctx elec p2.2]), p2.2 + 1)
  else (p1.1 ++ p2.1, p2.2)

/-- The "upload a document for every nonempty amount" validation. -/
def docMissing (fuels refrigs : List FuelInput) (elec : ElecInput) : Bool :=
  fuels.any (fun ft => stripStr ft.amount ≠ "" && ft.file = "") ||
  refrigs.any (fun rt => stripStr rt.amount ≠ "" && rt.file = "") ||
  (stripStr elec.amount ≠ "" && elec.file = "")

/-- What `submit_data_handler` reports. -/
inductive SubmitOutcome
  | missingFields
  | missingDocument
  | noData
  | submitted
deriving DecidableEq, Repr

/-- `DataEntryPage.submit_data_handler`: validate, build the new records
from `record_id_counter`, extend the module-level list, then persist with
`save_emission_records()` (which re-inserts the WHOLE list) and reload with
`load_emission_records()`.  `saveOK`/`loadOK` model whether each function
obtains a database connection. -/
def submit_data_handler (ctx : SubmitCtx) (fuels refrigs : List FuelInput)
    (elec : ElecInput) (st : CacheState) (store : Store)
    (saveOK loadOK : Bool) : CacheState × Store × SubmitOutcome :=
  let c : SubmitCtx :=
    { ctx with
      unit := stripStr ctx.unit,
      month := stripStr ctx.month,
      year := stripStr ctx.year }
  if c.unit = "" || c.month = "" || c.year = "" || c.entry_date = "" then
    (st, store, SubmitOutcome.missingFields)
  else if docMissing fuels refrigs elec then
    (st, store, SubmitOutcome.missingDocument)
  else
    let p := submitNewRecords c fuels refrigs elec st.counter
    if p.1.isEmpty then (st, store, SubmitOutcome.noData)
    else
      let st1 : CacheState := ⟨st.records ++ p.1, p.2⟩
      let store1 := if saveOK then save_emission_records st1.records store else store
      let st2 := load_emission_records (if loadOK then some store1 else none) st1
      (st2, store1, SubmitOutcome.submitted)

/-! ### Filtering (`EmissionDataPage.apply_filters`, data.py lines 1091-1102) -/

/-- The six filter combo boxes; each is either `"All"` or an exact value. -/
structure FilterVars where
  unit : String
  month : String
  year : String
  emission_category : String
  emission_name : String
  emission_type : String
deriving DecidableEq, Repr

/-- The conjunction tested for one record by `apply_filters`. -/
def matchesFilters (f : FilterVars) (r : EmissionRecord) : Bool :=
  (f.unit = "All" || r.company_unit = f.unit) &&
  (f.month = "All" || r.month = f.month) &&
  (f.year = "All" || r.year = f.year) &&
  (f.emission_category = "All" || r.emission_category = f.emission_category) &&
  (f.emission_name = "All" || r.emission_name = f.emission_name) &&
  (f.emission_type = "All" || r.emission_type = f.emission_type)

/-- `EmissionDataPage.apply_filters`: the pure in-memory pass over
`emission_records` collecting the matching records in order. -/
def apply_filters (f : FilterVars) (recs : List EmissionRecord) :
    List EmissionRecord :=
  recs.filter (matchesFilters f)

/-- All six combo boxes left at `"All"`. -/
def allAllFilters : FilterVars := ⟨"All", "All", "All", "All", "All", "All"⟩

/-! ### Derived notions used by the specification statements -/

/-- main.py `EditDialog.save_changes` followed by `save_emission_records`:
the pair (in-memory list, disk file content).  `disk0` is the previous file
content; a raising `float(factor)` aborts before both. -/
def main_save_changes_handler (recs : List MainRecord) (idx : ℕ)
    (inp : MainEditInputs) (diskOK : Bool) (disk0 : Option (List MainRecord)) :
    List MainRecord × Option (List MainRecord) :=
  match main_save_changes recs idx inp with
  | none => (recs, disk0)
  | some updated => (updated, if diskOK then some updated else disk0)

/-- A cached record every field of which survives conversion to a table row
(date and the three numeric strings all parse). -/
def recConvertible (r : EmissionRecord) : Bool :=
  (parseDate r.entry_date).isSome && (pyFloatVal r.factor).isSome &&
  (pyFloatVal r.value).isSome && (pyFloatVal r.total).isSome

/-- The rows inserted by one `save_emission_records` pass starting at
identity `i`: convertible records are inserted with consecutive identity
values, the rest are skipped. -/
def insertedRows (i : ℕ) : List EmissionRecord → List DBRow
  | [] => []
  | r :: rest =>
    match rowOfRecord i r with
    | some row => row :: insertedRows (i + 1) rest
    | none => insertedRows i rest

/-- What one batch of cached records becomes after being persisted from
identity `i` and read back. -/
def roundTripped (i : ℕ) (recs : List EmissionRecord) : List EmissionRecord :=
  (insertedRows i recs).map recordOfRow

/-- The id invariant of the cache: ids are pairwise distinct and the
counter is strictly above every id. -/
def IdsOK (st : CacheState) : Prop :=
  (st.records.map (fun r => r.record_id)).Nodup ∧
  ∀ r ∈ st.records, r.record_id < st.counter

/-- Reassemble the pieces of `splitOnChar c`. -/
def unsplitChar (c : Char) : List (List Char) → List Char
  | [] => []
  | [x] => x
  | x :: xs => x ++ c :: unsplitChar c xs

/-- Specification-side reading of "parses as a calendar date in the
YYYY-MM-DD input format": a four-digit year, dash, one-or-two-digit month,
dash, one-or-two-digit day, with month, day and year in calendar range
(`strptime`'s `%m`/`%d` accept one or two digits). -/
def SpecCalendarDate (s : String) : Prop :=
  ∃ ys ms ds : List Char,
    s.data = ys ++ '-' :: (ms ++ '-' :: ds) ∧
    (∀ c ∈ ys ++ ms ++ ds, c.isDigit = true) ∧
    ys.length = 4 ∧ 1 ≤ ms.length ∧ ms.length ≤ 2 ∧
    1 ≤ ds.length ∧ ds.length ≤ 2 ∧
    1 ≤ decval ys ∧ 1 ≤ decval ms ∧ decval ms ≤ 12 ∧
    1 ≤ decval ds ∧ decval ds ≤ daysInMonth (decval ys) (decval ms)

/-! ### A concrete session trace (three persisted rows, delete of the
maximal id, refresh, then a new submission) -/

/-- A stored table row with the given id (same entry date for all three, so
the load order is simply by descending id). -/
def c4Row (rid : ℕ) : DBRow :=
  ⟨"u@x", "2025-03-07", "March", "2025", "C-49", "Scope1", "Fuel", "Diesel",
    25000, 1000000, 2500000, "", "d.pdf", rid⟩

/-- A backing table holding rows 1, 2, 3; the identity sequence is at 4. -/
def c4Store : Store := ⟨[c4Row 1, c4Row 2, c4Row 3], 4⟩

/-- The cache after the initial `load_emission_records`. -/
def c4Loaded : CacheState := load_emission_records (some c4Store) ⟨[], 0⟩

/-- Deleting record 3 (the maximal id). -/
def c4AfterDelete : CacheState × Store × DeleteOutcome :=
  delete_record true c4Loaded c4Store 3

/-- The refresh after the delete: `refresh_table` calls
`load_emission_records` again, which recomputes the id counter as
`max(remaining ids) + 1`. -/
def c4Reloaded : CacheState :=
  load_emission_records (some c4AfterDelete.2.1) c4AfterDelete.1

/-- A submission of one fuel row after the refresh (persistence and reload
both unavailable, so the locally assigned id stays visible). -/
def c4Submit : CacheState × Store × SubmitOutcome :=
  submit_data_handler ⟨"u@x", "2025-03-07", "March", "2025", "C-49"⟩
    [⟨"Diesel", ⟨25, 1⟩, "100", "", "doc.pdf"⟩] [] ⟨⟨71, 2⟩, "", "", ""⟩
    c4Reloaded c4AfterDelete.2.1 false false

/-! ## Lemmas -/

/-! ### Decimal rendering -/

theorem natDecAuxF_fuel (f : ℕ) : ∀ (g n : ℕ) (acc : List Char), n < f → n < g →
    natDecAuxF f n acc = natDecAuxF g n acc := by
  induction f with
  | zero => intro g n acc h _; omega
  | succ f ih =>
    intro g n acc hf hg
    cases g with
    | zero => omega
    | succ g =>
      simp only [natDecAuxF]
      by_cases h : n / 10 = 0
      · simp [h]
      · have hn : n ≠ 0 := by intro e; subst e; simp at h
        have hlt : n / 10 < n := Nat.div_lt_self (by omega) (by omega)
        simp only [h, if_false]
        exact ih g (n / 10) (digChar n :: acc) (by omega) (by omega)

theorem natDecAuxF_acc (f : ℕ) : ∀ (n : ℕ) (acc : List Char),
    natDecAuxF f n acc = natDecAuxF f n [] ++ acc := by
  induction f with
  | zero => intro n acc; simp [natDecAuxF]
  | succ f ih =>
    intro n acc
    simp only [natDecAuxF]
    by_cases h : n / 10 = 0
    · simp [h]
    · simp only [h, if_false]
      rw [ih (n / 10) (digChar n :: acc), ih (n / 10) [digChar n]]
      simp

theorem natDecL_small (n : ℕ) (h : n < 10) : natDecL n = [digChar n] := by
  unfold natDecL
  simp [natDecAuxF, Nat.div_eq_of_lt h]

theorem natDecAuxF_unfold (f n : ℕ) (acc : List Char) :
    natDecAuxF (f + 1) n acc =
      if n / 10 = 0 then digChar n :: acc
      else natDecAuxF f (n / 10) (digChar n :: acc) := rfl

theorem natDecL_step (n : ℕ) (h : 10 ≤ n) :
    natDecL n = natDecL (n / 10) ++ [digChar n] := by
  have h10 : n / 10 ≠ 0 := by
    have : 1 ≤ n / 10 := (Nat.one_le_div_iff (by omega)).2 h
    omega
  unfold natDecL
  cases n with
  | zero => omega
  | succ m =>
    rw [natDecAuxF_unfold (m + 1) (m + 1) [], if_neg h10, natDecAuxF_acc]
    congr 1
    exact natDecAuxF_fuel (m + 1) ((m + 1) / 10 + 1) ((m + 1) / 10) [] (by omega)
      (by omega)

theorem decval_append_single (l : List Char) (c : Char) :
    decval (l ++ [c]) = 10 * decval l + (c.toNat - 48) := by
  unfold decval
  rw [List.foldl_append]
  rfl

theorem digChar_toNat_fin : ∀ r : Fin 10, (Char.ofNat (48 + r.val)).toNat = 48 + r.val := by
  decide

theorem digChar_isDigit_fin : ∀ r : Fin 10, (Char.ofNat (48 + r.val)).isDigit = true := by
  decide

theorem digChar_toNat (n : ℕ) : (digChar n).toNat = 48 + n % 10 := by
  have h : n % 10 < 10 := Nat.mod_lt _ (by norm_num)
  exact digChar_toNat_fin ⟨n % 10, h⟩

theorem digChar_isDigit (n : ℕ) : (digChar n).isDigit = true := by
  have h : n % 10 < 10 := Nat.mod_lt _ (by norm_num)
  exact digChar_isDigit_fin ⟨n % 10, h⟩

theorem decval_natDecL (n : ℕ) : decval (natDecL n) = n := by
  induction n using Nat.strong_induction_on with
  | _ n ih =>
    by_cases h : n < 10
    · rw [natDecL_small n h]
      show 10 * 0 + ((digChar n).toNat - 48) = n
      rw [digChar_toNat]
      omega
    · push_neg at h
      have hlt : n / 10 < n := Nat.div_lt_self (by omega) (by omega)
      rw [natDecL_step n h, decval_append_single, ih (n / 10) hlt, digChar_toNat]
      omega

theorem natDec_injective : Function.Injective natDec := by
  intro a b h
  have hl : natDecL a = natDecL b := congrArg String.data h
  calc a = decval (natDecL a) := (decval_natDecL a).symm
    _ = decval (natDecL b) := by rw [hl]
    _ = b := decval_natDecL b

theorem natDecL_ne_nil (n : ℕ) : natDecL n ≠ [] := by
  by_cases h : n < 10
  · rw [natDecL_small n h]; simp
  · rw [natDecL_step n (by omega)]; simp

theorem natDecL_digits (n : ℕ) : ∀ c ∈ natDecL n, c.isDigit = true := by
  induction n using Nat.strong_induction_on with
  | _ n ih =>
    by_cases h : n < 10
    · rw [natDecL_small n h]
      intro c hc
      rw [List.mem_singleton] at hc
      subst hc
      exact digChar_isDigit n
    · intro c hc
      rw [natDecL_step n (by omega)] at hc
      rcases List.mem_append.1 hc with h1 | h2
      · exact ih (n / 10) (Nat.div_lt_self (by omega) (by omega)) c h1
      · rw [List.mem_singleton] at h2
        subst h2
        exact digChar_isDigit n

theorem natDecL_length_le : ∀ k n : ℕ, 1 ≤ k → n < 10 ^ k → (natDecL n).length ≤ k := by
  intro k
  induction k with
  | zero => omega
  | succ k ih =>
    intro n _ hn
    by_cases h : n < 10
    · rw [natDecL_small n h]
      simp only [List.length_singleton]
      omega
    · have hk : 1 ≤ k := by
        by_contra hk0
        have : k = 0 := by omega
        subst this
        simp at hn
        omega
      have hdiv : n / 10 < 10 ^ k := by
        rw [Nat.div_lt_iff_lt_mul (by omega)]
        calc n < 10 ^ (k + 1) := hn
          _ = 10 ^ k * 10 := by ring
      have := ih (n / 10) hk hdiv
      rw [natDecL_step n (by omega), List.length_append]
      simp only [List.length_singleton]
      omega

theorem decval_cons_zero (l : List Char) : decval ('0' :: l) = decval l := by
  have h : 10 * 0 + ('0'.toNat - 48) = 0 := by decide
  show List.foldl _ (10 * 0 + ('0'.toNat - 48)) l = List.foldl _ 0 l
  rw [h]

theorem decval_replicate_zero (j : ℕ) (l : List Char) :
    decval (List.replicate j '0' ++ l) = decval l := by
  induction j with
  | zero => rfl
  | succ j ih =>
    rw [List.replicate_succ, List.cons_append, decval_cons_zero]
    exact ih

theorem decval_padZeros (k n : ℕ) : decval (padZeros k n) = n := by
  unfold padZeros
  rw [decval_replicate_zero]
  exact decval_natDecL n

theorem padZeros_length (k n : ℕ) (hk : 1 ≤ k) (h : n < 10 ^ k) :
    (padZeros k n).length = k := by
  unfold padZeros
  rw [List.length_append, List.length_replicate]
  have := natDecL_length_le k n hk h
  omega

theorem padZeros_digits (k n : ℕ) : ∀ c ∈ padZeros k n, c.isDigit = true := by
  intro c hc
  unfold padZeros at hc
  rcases List.mem_append.1 hc with h1 | h2
  · have := List.eq_of_mem_replicate h1
    subst this
    decide
  · exact natDecL_digits n c h2

/-! ### Whitespace stripping -/

theorem dropWhile_eq_self_of_head (p : Char → Bool) (l : List Char)
    (h : ∀ c, l.head? = some c → p c = false) : l.dropWhile p = l := by
  cases l with
  | nil => rfl
  | cons c t => simp [List.dropWhile_cons, h c rfl]

theorem dropWhile_head?_false (p : Char → Bool) (l : List Char) :
    ∀ c, (l.dropWhile p).head? = some c → p c = false := by
  induction l with
  | nil => intro c h; simp at h
  | cons x t ih =>
    intro c h
    rw [List.dropWhile_cons] at h
    by_cases hx : p x
    · rw [if_pos hx] at h
      exact ih c h
    · rw [if_neg hx] at h
      simp at h
      rw [← h]
      exact Bool.eq_false_iff.2 hx

theorem dropWhile_getLast? (p : Char → Bool) (l : List Char)
    (h : l.dropWhile p ≠ []) : (l.dropWhile p).getLast? = l.getLast? := by
  induction l with
  | nil => rfl
  | cons x t ih =>
    by_cases hx : p x
    · rw [List.dropWhile_cons, if_pos hx] at h ⊢
      have ht : t ≠ [] := by
        intro e
        subst e
        simp at h
      rw [ih h]
      cases t with
      | nil => exact absurd rfl ht
      | cons y u => simp [List.getLast?_cons_cons]
    · rw [List.dropWhile_cons, if_neg hx]

theorem pyStrip_no_space (l : List Char)
    (h : ∀ c ∈ l, isPySpace c = false) : pyStrip l = l := by
  unfold pyStrip
  have h1 : l.dropWhile isPySpace = l :=
    dropWhile_eq_self_of_head _ _ (fun c hc => h c (List.mem_of_mem_head? hc))
  rw [h1]
  have h2 : l.reverse.dropWhile isPySpace = l.reverse :=
    dropWhile_eq_self_of_head _ _
      (fun c hc => h c (by
        have := List.mem_of_mem_head? hc
        rwa [List.mem_reverse] at this))
  rw [h2, List.reverse_reverse]

theorem pyStrip_head?_ok (l : List Char) :
    ∀ c, (pyStrip l).head? = some c → isPySpace c = false := by
  intro c hc
  unfold pyStrip at hc
  rw [List.head?_reverse] at hc
  by_cases hB : (l.dropWhile isPySpace).reverse.dropWhile isPySpace = []
  · rw [hB] at hc
    simp at hc
  · rw [dropWhile_getLast? _ _ hB, List.getLast?_reverse] at hc
    exact dropWhile_head?_false _ _ c hc

theorem pyStrip_getLast?_ok (l : List Char) :
    ∀ c, (pyStrip l).getLast? = some c → isPySpace c = false := by
  intro c hc
  unfold pyStrip at hc
  rw [List.getLast?_reverse] at hc
  exact dropWhile_head?_false _ _ c hc

theorem pyStrip_idem (l : List Char) : pyStrip (pyStrip l) = pyStrip l := by
  conv_lhs => rw [pyStrip]
  have h1 : (pyStrip l).dropWhile isPySpace = pyStrip l :=
    dropWhile_eq_self_of_head _ _ (pyStrip_head?_ok l)
  rw [h1]
  have h2 : (pyStrip l).reverse.dropWhile isPySpace = (pyStrip l).reverse :=
    dropWhile_eq_self_of_head _ _ (fun c hc => by
      rw [List.head?_reverse] at hc
      exact pyStrip_getLast?_ok l c hc)
  rw [h2, List.reverse_reverse]

theorem pyFloatVal_stripStr (s : String) :
    pyFloatVal (stripStr s) = pyFloatVal s := by
  show pyFloatAux (pyStrip (pyStrip s.data)) = pyFloatAux (pyStrip s.data)
  rw [pyStrip_idem]

/-! ### Parser evaluation on rendered decimal strings -/

theorem takeWhile_append_all (p : Char → Bool) (A r : List Char)
    (hA : ∀ c ∈ A, p c = true) :
    (A ++ r).takeWhile p = A ++ r.takeWhile p := by
  induction A with
  | nil => rfl
  | cons a t ih =>
    rw [List.cons_append, List.takeWhile_cons, if_pos (hA a (by simp)),
      ih (fun c hc => hA c (by simp [hc])), List.cons_append]

theorem dropWhile_append_all (p : Char → Bool) (A r : List Char)
    (hA : ∀ c ∈ A, p c = true) :
    (A ++ r).dropWhile p = r.dropWhile p := by
  induction A with
  | nil => rfl
  | cons a t ih =>
    rw [List.cons_append, List.dropWhile_cons, if_pos (hA a (by simp))]
    exact ih (fun c hc => hA c (by simp [hc]))

theorem takeWhile_all (p : Char → Bool) (l : List Char)
    (h : ∀ c ∈ l, p c = true) : l.takeWhile p = l := by
  have := takeWhile_append_all p l [] h
  simpa using this

theorem dropWhile_all (p : Char → Bool) (l : List Char)
    (h : ∀ c ∈ l, p c = true) : l.dropWhile p = [] := by
  have := dropWhile_append_all p l [] h
  simpa using this

theorem isDigit_not_space (c : Char) (h : c.isDigit = true) :
    isPySpace c = false := by
  by_contra hs
  rw [Bool.not_eq_false] at hs
  have hc : c = ' ' ∨ c = '\t' ∨ c = '\n' ∨ c = '\r' ∨ c = '\x0b' ∨ c = '\x0c' := by
    simpa [isPySpace, or_assoc] using hs
  rcases hc with h1 | h1 | h1 | h1 | h1 | h1 <;>
    (subst h1; exact absurd h (by decide))

theorem isDigit_ne_dash (c : Char) (h : c.isDigit = true) : c ≠ '-' := by
  intro e; subst e; exact absurd h (by decide)

theorem isDigit_ne_plus (c : Char) (h : c.isDigit = true) : c ≠ '+' := by
  intro e; subst e; exact absurd h (by decide)

theorem isDigit_ne_dot (c : Char) (h : c.isDigit = true) : c ≠ '.' := by
  intro e; subst e; exact absurd h (by decide)

theorem splitSign_not_sign (l : List Char)
    (h : ∀ c, l.head? = some c → c ≠ '-' ∧ c ≠ '+') : splitSign l = (false, l) := by
  cases l with
  | nil => rfl
  | cons c t =>
    obtain ⟨h1, h2⟩ := h c rfl
    simp [splitSign, h1, h2]

theorem splitSign_dash (l : List Char) : splitSign ('-' :: l) = (true, l) := by
  simp [splitSign]

/-- Evaluation of the sign-free parser body on `A ++ '.' :: B` with `A`
nonempty digits and `B` digits. -/
theorem pyFloatAux_frac (A B : List Char) (neg : Bool)
    (hA : ∀ c ∈ A, c.isDigit = true) (hB : ∀ c ∈ B, c.isDigit = true)
    (hAne : A ≠ []) (hsp : splitSign (if neg then '-' :: (A ++ '.' :: B)
      else A ++ '.' :: B) = (neg, A ++ '.' :: B)) :
    pyFloatAux (if neg then '-' :: (A ++ '.' :: B) else A ++ '.' :: B) =
      some (if neg then Dec.neg ⟨(decval A : ℤ) * 10 ^ B.length + decval B, B.length⟩
            else ⟨(decval A : ℤ) * 10 ^ B.length + decval B, B.length⟩) := by
  unfold pyFloatAux
  rw [hsp]
  have htake : (A ++ '.' :: B).takeWhile Char.isDigit = A := by
    rw [takeWhile_append_all _ _ _ hA, List.takeWhile_cons,
      if_neg (by decide : ¬('.'.isDigit = true)), List.append_nil]
  have hdrop : (A ++ '.' :: B).dropWhile Char.isDigit = '.' :: B := by
    rw [dropWhile_append_all _ _ _ hA, List.dropWhile_cons,
      if_neg (by decide : ¬('.'.isDigit = true))]
  have hfp : B.takeWhile Char.isDigit = B := takeWhile_all _ _ hB
  have hl3 : B.dropWhile Char.isDigit = [] := dropWhile_all _ _ hB
  have hip : A.isEmpty = false := by
    cases A with
    | nil => exact absurd rfl hAne
    | cons a t => rfl
  simp [htake, hdrop, hfp, hl3, hip, parseExpPart]

theorem pyFloatVal_mk (L : List Char) : pyFloatVal ⟨L⟩ = pyFloatAux (pyStrip L) := rfl

theorem pyFloatAux_frac_pos (A B : List Char)
    (hA : ∀ c ∈ A, c.isDigit = true) (hB : ∀ c ∈ B, c.isDigit = true)
    (hAne : A ≠ []) :
    pyFloatAux (A ++ '.' :: B) =
      some ⟨(decval A : ℤ) * 10 ^ B.length + decval B, B.length⟩ := by
  have hsp : splitSign (A ++ '.' :: B) = (false, A ++ '.' :: B) := by
    apply splitSign_not_sign
    intro c hc
    cases A with
    | nil => exact absurd rfl hAne
    | cons a t =>
      rw [List.cons_append] at hc
      simp at hc
      subst hc
      have ha := hA a (by simp)
      exact ⟨isDigit_ne_dash a ha, isDigit_ne_plus a ha⟩
  have := pyFloatAux_frac A B false hA hB hAne (by simpa using hsp)
  simpa using this

theorem pyFloatAux_frac_neg (A B : List Char)
    (hA : ∀ c ∈ A, c.isDigit = true) (hB : ∀ c ∈ B, c.isDigit = true)
    (hAne : A ≠ []) :
    pyFloatAux ('-' :: (A ++ '.' :: B)) =
      some (Dec.neg ⟨(decval A : ℤ) * 10 ^ B.length + decval B, B.length⟩) := by
  have := pyFloatAux_frac A B true hA hB hAne
    (by simpa using splitSign_dash (A ++ '.' :: B))
  simpa using this

theorem decNormLoop_toQ (f : ℕ) : ∀ (m : ℤ) (e : ℕ),
    (decNormLoop f m e).toQ = Dec.toQ ⟨m, e⟩ := by
  induction f with
  | zero => intro m e; rfl
  | succ f ih =>
    intro m e
    simp only [decNormLoop]
    by_cases he : e = 0
    · simp [he]
    · rw [if_neg he]
      by_cases hm : m % 10 = 0
      · rw [if_pos hm, ih]
        obtain ⟨e', rfl⟩ : ∃ e', e = e' + 1 := ⟨e - 1, by omega⟩
        have hdiv : (10 : ℤ) * (m / 10) = m := by
          have := Int.ediv_add_emod m 10
          omega
        show Dec.toQ ⟨m / 10, e' + 1 - 1⟩ = Dec.toQ ⟨m, e' + 1⟩
        unfold Dec.toQ
        have hm' : (m : ℚ) = 10 * ((m / 10 : ℤ) : ℚ) := by exact_mod_cast hdiv.symm
        simp only [Nat.add_sub_cancel]
        rw [hm', show (10 : ℚ) ^ (e' + 1) = 10 * 10 ^ e' from by ring]
        rw [mul_div_mul_left _ _ (by norm_num : (10 : ℚ) ≠ 0)]
      · rw [if_neg hm]

theorem Dec.norm_toQ (a : Dec) : a.norm.toQ = a.toQ := decNormLoop_toQ a.exp a.man a.exp

theorem Dec.toQ_neg (x : Dec) : (Dec.neg x).toQ = -x.toQ := by
  unfold Dec.neg Dec.toQ
  push_cast
  ring

theorem Dec.toQ_shift (m : ℤ) (e : ℕ) : Dec.toQ ⟨m * 10, e + 1⟩ = Dec.toQ ⟨m, e⟩ := by
  unfold Dec.toQ
  push_cast
  rw [show (10 : ℚ) ^ (e + 1) = 10 ^ e * 10 from by ring]
  rw [mul_div_mul_right _ _ (by norm_num : (10 : ℚ) ≠ 0)]

theorem pyFloatVal_floatStr (a : Dec) :
    ∀ r, pyFloatVal (floatStr a) = some r → r.toQ = a.toQ := by
  intro r hr
  rw [← Dec.norm_toQ a]
  have heta : Dec.toQ a.norm = Dec.toQ ⟨a.norm.man, a.norm.exp⟩ := rfl
  unfold floatStr at hr
  by_cases he : a.norm.exp = 0
  · rw [if_pos he] at hr
    set v := a.norm.man.natAbs with hv
    have hA := natDecL_digits v
    have hAne := natDecL_ne_nil v
    have hB : ∀ c ∈ ['0'], c.isDigit = true := by decide
    have hns : ∀ c ∈ (if a.norm.man < 0 then ['-'] else []) ++
        (natDecL v ++ ['.', '0']), isPySpace c = false := by
      intro c hc
      rcases List.mem_append.1 hc with h1 | h2
      · by_cases hm : a.norm.man < 0
        · rw [if_pos hm] at h1
          rw [List.mem_singleton] at h1
          subst h1
          decide
        · rw [if_neg hm] at h1
          simp at h1
      · rcases List.mem_append.1 h2 with h3 | h4
        · exact isDigit_not_space c (hA c h3)
        · rcases List.mem_cons.1 h4 with h5 | h5
          · subst h5
            decide
          · rw [List.mem_singleton] at h5
            subst h5
            decide
    have hd0 : decval ['0'] = 0 := by decide
    rw [List.append_assoc] at hr
    rw [pyFloatVal_mk, pyStrip_no_space _ hns] at hr
    by_cases hm : a.norm.man < 0
    · rw [if_pos hm, List.singleton_append,
        pyFloatAux_frac_neg _ _ hA hB hAne] at hr
      have hre : r = Dec.neg ⟨(decval (natDecL v) : ℤ) * 10 ^ ([('0' : Char)].length) +
          decval ['0'], [('0' : Char)].length⟩ := (Option.some_inj.1 hr).symm
      subst hre
      rw [Dec.toQ_neg]
      have hman : ((decval (natDecL v) : ℤ) * 10 ^ ([('0' : Char)].length) +
          (decval ['0'] : ℤ)) = (v : ℤ) * 10 := by
        rw [decval_natDecL, hd0]
        simp
      rw [show (⟨(decval (natDecL v) : ℤ) * 10 ^ ([('0' : Char)].length) +
          decval ['0'], [('0' : Char)].length⟩ : Dec) =
          ⟨(v : ℤ) * 10, 0 + 1⟩ from by rw [Dec.mk.injEq]; exact ⟨hman, rfl⟩]
      rw [Dec.toQ_shift, heta, he]
      have hvm : (v : ℤ) = -a.norm.man := by rw [hv]; omega
      rw [hvm]
      unfold Dec.toQ
      push_cast
      ring
    · rw [if_neg hm, List.nil_append, pyFloatAux_frac_pos _ _ hA hB hAne] at hr
      have hre : r = ⟨(decval (natDecL v) : ℤ) * 10 ^ ([('0' : Char)].length) +
          decval ['0'], [('0' : Char)].length⟩ := (Option.some_inj.1 hr).symm
      subst hre
      have hman : ((decval (natDecL v) : ℤ) * 10 ^ ([('0' : Char)].length) +
          (decval ['0'] : ℤ)) = (v : ℤ) * 10 := by
        rw [decval_natDecL, hd0]
        simp
      rw [show (⟨(decval (natDecL v) : ℤ) * 10 ^ ([('0' : Char)].length) +
          decval ['0'], [('0' : Char)].length⟩ : Dec) =
          ⟨(v : ℤ) * 10, 0 + 1⟩ from by rw [Dec.mk.injEq]; exact ⟨hman, rfl⟩]
      rw [Dec.toQ_shift, heta, he]
      have hvm : (v : ℤ) = a.norm.man := by rw [hv]; omega
      rw [hvm]
  · rw [if_neg he] at hr
    set v := a.norm.man.natAbs with hv
    set e := a.norm.exp with hee
    set A := natDecL (v / 10 ^ e) with hA'
    set B := padZeros e (v % 10 ^ e) with hB'
    have hA : ∀ c ∈ A, c.isDigit = true := natDecL_digits (v / 10 ^ e)
    have hAne : A ≠ [] := natDecL_ne_nil (v / 10 ^ e)
    have hB : ∀ c ∈ B, c.isDigit = true := padZeros_digits e (v % 10 ^ e)
    have hBlen : B.length = e :=
      padZeros_length e (v % 10 ^ e) (by omega) (Nat.mod_lt _ (by positivity))
    have hBval : decval B = v % 10 ^ e := decval_padZeros e (v % 10 ^ e)
    have hns : ∀ c ∈ (if a.norm.man < 0 then ['-'] else []) ++ (A ++ '.' :: B),
        isPySpace c = false := by
      intro c hc
      rcases List.mem_append.1 hc with h1 | h2
      · by_cases hm : a.norm.man < 0
        · rw [if_pos hm] at h1
          rw [List.mem_singleton] at h1
          subst h1
          decide
        · rw [if_neg hm] at h1
          simp at h1
      · rcases List.mem_append.1 h2 with h3 | h4
        · exact isDigit_not_space c (hA c h3)
        · rcases List.mem_cons.1 h4 with h5 | h5
          · subst h5
            decide
          · exact isDigit_not_space c (hB c h5)
    rw [List.append_assoc] at hr
    rw [pyFloatVal_mk, pyStrip_no_space _ hns] at hr
    have hman : ((decval A : ℤ) * 10 ^ B.length + (decval B : ℤ)) = (v : ℤ) := by
      rw [hBlen, hBval, hA', decval_natDecL, mul_comm]
      exact_mod_cast Nat.div_add_mod v (10 ^ e)
    by_cases hm : a.norm.man < 0
    · rw [if_pos hm, List.singleton_append, pyFloatAux_frac_neg _ _ hA hB hAne] at hr
      have hre : r = Dec.neg ⟨(decval A : ℤ) * 10 ^ B.length + decval B, B.length⟩ :=
        (Option.some_inj.1 hr).symm
      subst hre
      rw [Dec.toQ_neg]
      rw [show (⟨(decval A : ℤ) * 10 ^ B.length + decval B, B.length⟩ : Dec) =
          ⟨(v : ℤ), e⟩ from by rw [Dec.mk.injEq]; exact ⟨hman, hBlen⟩]
      rw [heta]
      have hvm : (v : ℤ) = -a.norm.man := by rw [hv]; omega
      rw [hvm]
      unfold Dec.toQ
      push_cast
      ring
    · rw [if_neg hm, List.nil_append, pyFloatAux_frac_pos _ _ hA hB hAne] at hr
      have hre : r = ⟨(decval A : ℤ) * 10 ^ B.length + decval B, B.length⟩ :=
        (Option.some_inj.1 hr).symm
      subst hre
      rw [show (⟨(decval A : ℤ) * 10 ^ B.length + decval B, B.length⟩ : Dec) =
          ⟨(v : ℤ), e⟩ from by rw [Dec.mk.injEq]; exact ⟨hman, hBlen⟩]
      rw [heta]
      have hvm : (v : ℤ) = a.norm.man := by rw [hv]; omega
      rw [hvm]

/-! ### Rounding bridge and `formatTwo` congruence -/

theorem intDiv_eq_floorQ (N D : ℤ) (hD : 0 < D) : N / D = ⌊(N : ℚ) / (D : ℚ)⌋ := by
  symm
  rw [Int.floor_eq_iff]
  have h1 : D * (N / D) + N % D = N := Int.ediv_add_emod N D
  have h2 : 0 ≤ N % D := Int.emod_nonneg N (by omega)
  have h3 : N % D < D := Int.emod_lt_of_pos N hD
  have hD' : (0 : ℚ) < (D : ℚ) := by exact_mod_cast hD
  constructor
  · rw [le_div_iff₀ hD']
    have hZ : (N / D) * D ≤ N := by linarith [h1, h2]
    exact_mod_cast hZ
  · rw [div_lt_iff₀ hD']
    have hZ : N < (N / D + 1) * D := by linarith [h1, h3]
    exact_mod_cast hZ

theorem rheInt_eq_rheQ (N D : ℤ) (hD : 0 < D) :
    rheInt N D = rheQ ((N : ℚ) / (D : ℚ)) := by
  have hfl : ⌊(N : ℚ) / (D : ℚ)⌋ = N / D := (intDiv_eq_floorQ N D hD).symm
  have h1 : D * (N / D) + N % D = N := Int.ediv_add_emod N D
  have hD' : (0 : ℚ) < (D : ℚ) := by exact_mod_cast hD
  unfold rheInt rheQ
  rw [hfl]
  set q := N / D with hq
  set R := N % D with hR
  have hcast : (D : ℚ) * (q : ℚ) + (R : ℚ) = (N : ℚ) := by exact_mod_cast h1
  have hfrac : (N : ℚ) / D - (q : ℚ) = (R : ℚ) / D := by
    rw [← hcast]
    field_simp
  rw [hfrac]
  have hiff1 : (R : ℚ) / D < 1 / 2 ↔ 2 * R < D := by
    rw [div_lt_iff₀ hD']
    constructor
    · intro h
      have h' : ((2 * R : ℤ) : ℚ) < (D : ℚ) := by push_cast; linarith
      exact_mod_cast h'
    · intro h
      have h' : ((2 * R : ℤ) : ℚ) < (D : ℚ) := by exact_mod_cast h
      push_cast at h'
      linarith
  have hiff2 : (1 / 2 : ℚ) < (R : ℚ) / D ↔ D < 2 * R := by
    rw [lt_div_iff₀ hD']
    constructor
    · intro h
      have h' : (D : ℚ) < ((2 * R : ℤ) : ℚ) := by push_cast; linarith
      exact_mod_cast h'
    · intro h
      have h' : (D : ℚ) < ((2 * R : ℤ) : ℚ) := by exact_mod_cast h
      push_cast at h'
      linarith
  by_cases hc1 : 2 * R < D
  · rw [if_pos hc1, if_pos (hiff1.2 hc1)]
  · rw [if_neg hc1, if_neg (fun h => hc1 (hiff1.1 h))]
    by_cases hc2 : D < 2 * R
    · rw [if_pos hc2, if_pos (hiff2.2 hc2)]
    · rw [if_neg hc2, if_neg (fun h => hc2 (hiff2.1 h))]

theorem Dec.toQ_lt_zero (a : Dec) : a.toQ < 0 ↔ a.man < 0 := by
  unfold Dec.toQ
  rw [div_lt_iff₀ (by positivity : (0 : ℚ) < 10 ^ a.exp), zero_mul]
  exact Int.cast_lt_zero

theorem Dec.abs_toQ (a : Dec) :
    |a.toQ| = ((a.man.natAbs : ℤ) : ℚ) / 10 ^ a.exp := by
  unfold Dec.toQ
  rw [abs_div, abs_of_pos (by positivity : (0 : ℚ) < 10 ^ a.exp)]
  congr 1
  exact_mod_cast (Int.abs_eq_natAbs a.man).symm

theorem formatTwo_congr (a b : Dec) (h : a.toQ = b.toQ) :
    formatTwo a = formatTwo b := by
  unfold formatTwo
  have hsign : a.man < 0 ↔ b.man < 0 := by
    rw [← Dec.toQ_lt_zero, ← Dec.toQ_lt_zero, h]
  have ha : (((a.man.natAbs : ℤ) * 100 : ℤ) : ℚ) / ((10 ^ a.exp : ℤ) : ℚ) =
      |a.toQ| * 100 := by
    rw [Dec.abs_toQ]
    push_cast
    ring
  have hb : (((b.man.natAbs : ℤ) * 100 : ℤ) : ℚ) / ((10 ^ b.exp : ℤ) : ℚ) =
      |b.toQ| * 100 := by
    rw [Dec.abs_toQ]
    push_cast
    ring
  have hr : rheInt ((a.man.natAbs : ℤ) * 100) (10 ^ a.exp) =
      rheInt ((b.man.natAbs : ℤ) * 100) (10 ^ b.exp) := by
    rw [rheInt_eq_rheQ _ _ (by positivity), rheInt_eq_rheQ _ _ (by positivity)]
    rw [show (((10 : ℤ) ^ a.exp : ℤ) : ℚ) = ((10 ^ a.exp : ℤ) : ℚ) from rfl]
    rw [ha, hb, h]
  by_cases hm : a.man < 0
  · rw [if_pos hm, if_pos (hsign.1 hm), hr]
  · rw [if_neg hm, if_neg (fun hbneg => hm (hsign.2 hbneg)), hr]

theorem Dec.mul_toQ (a b : Dec) : (a.mul b).toQ = a.toQ * b.toQ := by
  unfold Dec.mul Dec.toQ
  push_cast
  rw [pow_add, div_mul_div_comm]

/-! ## Claim theorems -/

/-- C10: for every factor and every value string that does not parse as a
float (the empty string included), `update_total_value` returns `"0.00"`;
being a total Lean function, it never raises for any input. -/
theorem update_total_value_fallback (factor : Dec) (s : String)
    (h : pyFloatVal s = none) : update_total_value factor s = "0.00" := by
  unfold update_total_value
  rw [h]

/-- Witness for C10 at the empty string. -/
theorem update_total_value_fallback_witness :
    pyFloatVal "" = none ∧ update_total_value ⟨3, 0⟩ "" = "0.00" :=
  ⟨by decide, update_total_value_fallback ⟨3, 0⟩ "" (by decide)⟩

/-- C9: `apply_filters` is a pure in-memory pass: with every combo box at
"All" it returns the whole cache; a record is in the output iff it is in the
cache and matches every non-"All" criterion exactly on the corresponding
field (criteria ANDed, "All" a no-op); and the output is a subsequence of
the cache, preserving its original order. -/
theorem filter_correctness :
    (∀ recs : List EmissionRecord, apply_filters allAllFilters recs = recs) ∧
    (∀ (f : FilterVars) (recs : List EmissionRecord) (r : EmissionRecord),
      r ∈ apply_filters f recs ↔ r ∈ recs ∧
        ((f.unit = "All" ∨ r.company_unit = f.unit) ∧
         (f.month = "All" ∨ r.month = f.month) ∧
         (f.year = "All" ∨ r.year = f.year) ∧
         (f.emission_category = "All" ∨ r.emission_category = f.emission_category) ∧
         (f.emission_name = "All" ∨ r.emission_name = f.emission_name) ∧
         (f.emission_type = "All" ∨ r.emission_type = f.emission_type))) ∧
    (∀ (f : FilterVars) (recs : List EmissionRecord),
      (apply_filters f recs).Sublist recs) := by
  refine ⟨?_, ?_, ?_⟩
  · intro recs
    apply List.filter_eq_self.2
    intro r _
    simp [matchesFilters, allAllFilters]
  · intro f recs r
    unfold apply_filters
    rw [List.mem_filter]
    constructor
    · rintro ⟨h1, h2⟩
      refine ⟨h1, ?_⟩
      simpa [matchesFilters, Bool.and_eq_true, Bool.or_eq_true,
        decide_eq_true_eq, and_assoc] using h2
    · rintro ⟨h1, h2⟩
      refine ⟨h1, ?_⟩
      simpa [matchesFilters, Bool.and_eq_true, Bool.or_eq_true,
        decide_eq_true_eq, and_assoc] using h2
  · intro f recs
    exact List.filter_sublist recs

/-- C6: `load_emission_records` is fail-soft: when no connection can be
established (or the read raises, which the model merges into `none` since
the collection is only cleared after a successful fetch), the in-memory
state — records and counter — is returned exactly as it was; only on a
successful read is the collection cleared and repopulated from the fetched
rows. -/
theorem load_all_fail_soft :
    (∀ st : CacheState, load_emission_records none st = st) ∧
    (∀ (s : Store) (st : CacheState),
      (load_emission_records (some s) st).records =
        (sortRows s.rows).map recordOfRow) := by
  constructor
  · intro st
    rfl
  · intro s st
    rfl

/-! ### C1 development -/

theorem mkFuelRecord_total (ctx : SubmitCtx) (cat ename : String)
    (ft : FuelInput) (rid : ℕ) (f v : Dec)
    (hf : pyFloatVal (mkFuelRecord ctx cat ename ft rid).factor = some f)
    (hv : pyFloatVal (mkFuelRecord ctx cat ename ft rid).value = some v) :
    (mkFuelRecord ctx cat ename ft rid).total = formatTwo (f.mul v) := by
  have hv' : pyFloatVal ft.amount = some v := by
    rw [← pyFloatVal_stripStr]
    exact hv
  show update_total_value ft.factor ft.amount = formatTwo (f.mul v)
  unfold update_total_value
  rw [hv']
  apply formatTwo_congr
  rw [Dec.mul_toQ, Dec.mul_toQ, pyFloatVal_floatStr ft.factor f hf]

theorem mkElecRecord_total (ctx : SubmitCtx) (e : ElecInput) (rid : ℕ)
    (f v : Dec)
    (hf : pyFloatVal (mkElecRecord ctx e rid).factor = some f)
    (hv : pyFloatVal (mkElecRecord ctx e rid).value = some v) :
    (mkElecRecord ctx e rid).total = formatTwo (f.mul v) := by
  show update_total_value e.factor (stripStr e.amount) = formatTwo (f.mul v)
  unfold update_total_value
  rw [show pyFloatVal (stripStr e.amount) = some v from hv]
  apply formatTwo_congr
  rw [Dec.mul_toQ, Dec.mul_toQ, pyFloatVal_floatStr e.factor f hf]

theorem buildFuelLoop_mem (ctx : SubmitCtx) (cat ename : String) :
    ∀ (l : List FuelInput) (c : ℕ) (r : EmissionRecord),
      r ∈ (buildFuelLoop ctx cat ename l c).1 →
      ∃ ft rid, r = mkFuelRecord ctx cat ename ft rid := by
  intro l
  induction l with
  | nil =>
    intro c r h
    simp [buildFuelLoop] at h
  | cons ft rest ih =>
    intro c r h
    unfold buildFuelLoop at h
    by_cases hs : stripStr ft.amount ≠ ""
    · rw [if_pos hs] at h
      rcases List.mem_cons.1 h with h1 | h1
      · exact ⟨ft, c, h1⟩
      · exact ih (c + 1) r h1
    · rw [if_neg hs] at h
      exact ih c r h

theorem submitNewRecords_mem (ctx : SubmitCtx) (fuels refrigs : List FuelInput)
    (elec : ElecInput) (c : ℕ) (r : EmissionRecord)
    (h : r ∈ (submitNewRecords ctx fuels refrigs elec c).1) :
    (∃ cat ename ft rid, r = mkFuelRecord ctx cat ename ft rid) ∨
    (∃ rid, r = mkElecRecord ctx elec rid) := by
  unfold submitNewRecords at h
  by_cases hs : stripStr elec.amount ≠ ""
  · rw [if_pos hs] at h
    rcases List.mem_append.1 h with h1 | h1
    · rcases buildFuelLoop_mem ctx "Scope1" "Fuel" fuels c r h1 with ⟨ft, rid, he⟩
      exact Or.inl ⟨_, _, ft, rid, he⟩
    · rcases List.mem_append.1 h1 with h2 | h2
      · rcases buildFuelLoop_mem ctx "Scope1" "Refrigerants" refrigs _ r h2 with
          ⟨ft, rid, he⟩
        exact Or.inl ⟨_, _, ft, rid, he⟩
      · rw [List.mem_singleton] at h2
        exact Or.inr ⟨_, h2⟩
  · rw [if_neg hs] at h
    rcases List.mem_append.1 h with h1 | h1
    · rcases buildFuelLoop_mem ctx "Scope1" "Fuel" fuels c r h1 with ⟨ft, rid, he⟩
      exact Or.inl ⟨_, _, ft, rid, he⟩
    · rcases buildFuelLoop_mem ctx "Scope1" "Refrigerants" refrigs _ r h1 with
        ⟨ft, rid, he⟩
      exact Or.inl ⟨_, _, ft, rid, he⟩

/-- C1: every record produced by a submission, and the record written by a
successful edit, derives its total with `update_total_value`: whenever its
stored factor and value strings parse as floats `f` and `v`, its total
string is exactly `f * v` formatted to two fractional digits.  The third
conjunct shows a successful `save_changes` overwrites the cache slot with
exactly such a record (`updatedRecord`), so totals are never written any
other way by the modelled operations. -/
theorem total_derivation :
    (∀ (ctx : SubmitCtx) (fuels refrigs : List FuelInput) (elec : ElecInput)
       (c : ℕ) (r : EmissionRecord),
      r ∈ (submitNewRecords ctx fuels refrigs elec c).1 →
      ∀ f v, pyFloatVal r.factor = some f → pyFloatVal r.value = some v →
        r.total = formatTwo (f.mul v)) ∧
    (∀ (r0 : EmissionRecord) (f0 : Dec) (inp : EditInputs) (f v : Dec),
      pyFloatVal (updatedRecord r0 f0 inp).factor = some f →
      pyFloatVal (updatedRecord r0 f0 inp).value = some v →
      (updatedRecord r0 f0 inp).total = formatTwo (f.mul v)) ∧
    (∀ (st : CacheState) (conn : Option Store) (execOK : Bool) (idx : ℕ)
       (inp : EditInputs) (st' : CacheState) (conn' : Option Store),
      data_save_changes st conn execOK idx inp =
        (st', conn', UpdateOutcome.success) →
      ∃ r0 f0, st.records.get? idx = some r0 ∧ pyFloatVal r0.factor = some f0 ∧
        st'.records = st.records.set idx (updatedRecord r0 f0 inp)) := by
  refine ⟨?_, ?_, ?_⟩
  · intro ctx fuels refrigs elec c r hmem f v hf hv
    rcases submitNewRecords_mem ctx fuels refrigs elec c r hmem with
      ⟨cat, ename, ft, rid, he⟩ | ⟨rid, he⟩
    · subst he
      exact mkFuelRecord_total ctx cat ename ft rid f v hf hv
    · subst he
      exact mkElecRecord_total ctx elec rid f v hf hv
  · intro r0 f0 inp f v hf hv
    show update_total_value f0 inp.value = formatTwo (f.mul v)
    unfold update_total_value
    rw [show pyFloatVal inp.value = some v from hv]
    apply formatTwo_congr
    rw [Dec.mul_toQ, Dec.mul_toQ, pyFloatVal_floatStr f0 f hf]
  · intro st conn execOK idx inp st' conn' h
    unfold data_save_changes at h
    split at h
    · simp at h
    case _ r0 hget =>
      split at h
      · simp at h
      case _ f0 hf0 =>
        split at h
        · simp at h
        case _ store =>
          simp only [] at h
          split at h
          case _ v t hv ht =>
            refine ⟨r0, f0, hget, hf0, ?_⟩
            have := congrArg (fun p => p.1) h
            simp at this
            rw [← this]
          case _ hvt =>
            simp at h

/-- Witness for C1: a concrete submitted Diesel record with factor 2.5 and
value "100" has total "250.00" = formatTwo(2.5 × 100), and a concrete
successful edit. -/
theorem total_derivation_witness :
    ((⟨"u@x", "2025-03-07", "March", "2025", "C-49", "Scope1", "Fuel", "Diesel",
        "2.5", "100", "250.00", "", "doc.pdf", 0⟩ : EmissionRecord).total =
      formatTwo (Dec.mul ⟨25, 1⟩ ⟨100, 0⟩)) ∧
    ((updatedRecord
        ⟨"u@x", "2025-03-07", "March", "2025", "C-49", "Scope1", "Fuel",
          "Diesel", "2.5", "100", "250.00", "", "doc.pdf", 7⟩ ⟨25, 1⟩
        ⟨"C-49", "April", "2025", "Scope1", "Fuel", "Diesel", "12", "", "d.pdf"⟩).total =
      formatTwo (Dec.mul ⟨25, 1⟩ ⟨12, 0⟩)) :=
  ⟨total_derivation.1 ⟨"u@x", "2025-03-07", "March", "2025", "C-49"⟩
      [⟨"Diesel", ⟨25, 1⟩, "100", "", "doc.pdf"⟩] [] ⟨⟨71, 2⟩, "", "", ""⟩ 0
      ⟨"u@x", "2025-03-07", "March", "2025", "C-49", "Scope1", "Fuel", "Diesel",
        "2.5", "100", "250.00", "", "doc.pdf", 0⟩
      (by decide) ⟨25, 1⟩ ⟨100, 0⟩ (by decide) (by decide),
   total_derivation.2.1
      ⟨"u@x", "2025-03-07", "March", "2025", "C-49", "Scope1", "Fuel", "Diesel",
        "2.5", "100", "250.00", "", "doc.pdf", 7⟩ ⟨25, 1⟩
      ⟨"C-49", "April", "2025", "Scope1", "Fuel", "Diesel", "12", "", "d.pdf"⟩
      ⟨25, 1⟩ ⟨12, 0⟩ (by decide) (by decide)⟩

/-! ### C5 development -/

theorem delete_record_absent (st : CacheState) (store : Store) (rid : ℕ)
    (h : ∀ r ∈ st.records, r.record_id ≠ rid) :
    delete_record true st store rid =
      (st, ⟨store.rows.filter (fun row => row.record_id ≠ rid), store.identity⟩,
        DeleteOutcome.success) := by
  unfold delete_record
  rw [if_pos rfl]
  have hfil : st.records.filter (fun r => decide (r.record_id ≠ rid)) = st.records :=
    List.filter_eq_self.2 (fun r hr => by simpa using h r hr)
  rw [hfil]

/-- C5 counterexample: deleting an absent id (5) from a cache holding only
id 1 is reported as success, with cache and store unchanged — `delete` does
not fail with a record-not-found error on an absent id. -/
theorem delete_absent_reports_success :
    delete_record true
      ⟨[⟨"u@x", "2025-03-07", "March", "2025", "C-49", "Scope1", "Fuel",
        "Diesel", "2.5", "100", "250.00", "", "doc.pdf", 1⟩], 2⟩ ⟨[], 1⟩ 5 =
    (⟨[⟨"u@x", "2025-03-07", "March", "2025", "C-49", "Scope1", "Fuel",
        "Diesel", "2.5", "100", "250.00", "", "doc.pdf", 1⟩], 2⟩, ⟨[], 1⟩,
      DeleteOutcome.success) := by
  decide

/-- C5 amended: `delete_record` with a connection always reports success —
on an absent id it is a no-op on the cache rather than failing with
RecordNotFound.  After a delete of `rid`, the edit lookup (`findRecord`,
whose `none` is edit_record's "Record not found" error) fails for `rid`,
and a second delete of `rid` is again a success that leaves the cache
unchanged. -/
theorem delete_then_lookup :
    (∀ (st : CacheState) (store : Store) (rid : ℕ),
      (∀ r ∈ st.records, r.record_id ≠ rid) →
      delete_record true st store rid =
        (st, ⟨store.rows.filter (fun row => row.record_id ≠ rid),
          store.identity⟩, DeleteOutcome.success)) ∧
    (∀ (st : CacheState) (store : Store) (rid : ℕ),
      findRecord (delete_record true st store rid).1.records rid = none) ∧
    (∀ (st : CacheState) (store : Store) (rid : ℕ),
      delete_record true (delete_record true st store rid).1
          (delete_record true st store rid).2.1 rid =
        ((delete_record true st store rid).1,
          (delete_record true st store rid).2.1, DeleteOutcome.success)) := by
  have habsent : ∀ (st : CacheState) (store : Store) (rid : ℕ),
      ∀ r ∈ (delete_record true st store rid).1.records, r.record_id ≠ rid := by
    intro st store rid r hr
    unfold delete_record at hr
    rw [if_pos rfl] at hr
    simp only [List.mem_filter, decide_eq_true_eq] at hr
    exact hr.2
  refine ⟨delete_record_absent, ?_, ?_⟩
  · intro st store rid
    unfold findRecord
    apply List.find?_eq_none.2
    rintro ⟨r, i⟩ hmem
    have hr : r ∈ (delete_record true st store rid).1.records :=
      (List.of_mem_zip hmem).1
    simp only [decide_eq_true_eq]
    exact habsent st store rid r hr
  · intro st store rid
    have h2 := delete_record_absent (delete_record true st store rid).1
      (delete_record true st store rid).2.1 rid (habsent st store rid)
    rw [h2]
    have hrows : ((delete_record true st store rid).2.1).rows.filter
        (fun row => decide (row.record_id ≠ rid)) =
        ((delete_record true st store rid).2.1).rows := by
      apply List.filter_eq_self.2
      intro row hrow
      unfold delete_record at hrow
      rw [if_pos rfl] at hrow
      simp only [List.mem_filter, decide_eq_true_eq] at hrow
      simpa using hrow.2
    rw [hrows]

/-- Witness for C5 amended: a concrete delete of id 1 followed by a failed
lookup and a successful second delete. -/
theorem delete_then_lookup_witness :
    (findRecord (delete_record true
      ⟨[⟨"u@x", "2025-03-07", "March", "2025", "C-49", "Scope1", "Fuel",
        "Diesel", "2.5", "100", "250.00", "", "doc.pdf", 1⟩], 2⟩
      ⟨[], 1⟩ 1).1.records 1 = none) ∧
    (delete_record true
      ⟨[⟨"u@x", "2025-03-07", "March", "2025", "C-49", "Scope1", "Fuel",
        "Diesel", "2.5", "100", "250.00", "", "doc.pdf", 1⟩], 2⟩
      ⟨[], 1⟩ 5 =
      (⟨[⟨"u@x", "2025-03-07", "March", "2025", "C-49", "Scope1", "Fuel",
        "Diesel", "2.5", "100", "250.00", "", "doc.pdf", 1⟩], 2⟩,
        ⟨[], 1⟩, DeleteOutcome.success)) :=
  ⟨delete_then_lookup.2.1
      ⟨[⟨"u@x", "2025-03-07", "March", "2025", "C-49", "Scope1", "Fuel",
        "Diesel", "2.5", "100", "250.00", "", "doc.pdf", 1⟩], 2⟩ ⟨[], 1⟩ 1,
   delete_then_lookup.1
      ⟨[⟨"u@x", "2025-03-07", "March", "2025", "C-49", "Scope1", "Fuel",
        "Diesel", "2.5", "100", "250.00", "", "doc.pdf", 1⟩], 2⟩ ⟨[], 1⟩ 5
      (by decide)⟩

/-! ### C7 development -/

/-- C7 counterexample: in the data.py variant, when the store connection
cannot be established, `save_changes` of a new month "April" leaves the
cached record with its OLD month "March": the in-memory record does NOT
keep the new field values, contradicting the claimed optimistic local
update (data.py updates memory only after a successful store UPDATE). -/
theorem update_failure_keeps_old_values :
    data_save_changes
      ⟨[⟨"u@x", "2025-03-07", "March", "2025", "C-49", "Scope1", "Fuel",
        "Diesel", "2.5", "100", "250.00", "", "doc.pdf", 1⟩], 2⟩ none true 0
      ⟨"C-49", "April", "2025", "Scope1", "Fuel", "Diesel", "100", "", "doc.pdf"⟩ =
    (⟨[⟨"u@x", "2025-03-07", "March", "2025", "C-49", "Scope1", "Fuel",
        "Diesel", "2.5", "100", "250.00", "", "doc.pdf", 1⟩], 2⟩, none,
      UpdateOutcome.noConnection) ∧
    (updatedRecord
      ⟨"u@x", "2025-03-07", "March", "2025", "C-49", "Scope1", "Fuel",
        "Diesel", "2.5", "100", "250.00", "", "doc.pdf", 1⟩ ⟨25, 1⟩
      ⟨"C-49", "April", "2025", "Scope1", "Fuel", "Diesel", "100", "", "doc.pdf"⟩).month
      = "April" ∧
    "March" ≠ "April" := by
  refine ⟨by decide, by decide, by decide⟩

/-- C7 amended: the two variants disagree.  data.py is store-first: any
non-success outcome (parse error, missing connection, failed UPDATE) leaves
the in-memory cache exactly as it was — the old values, no optimistic
update.  main.py is memory-first: the in-memory list receives the new
record values irrespective of whether the JSON dump succeeds, so a
persistence failure leaves the NEW values in memory. -/
theorem update_rollback_policy :
    (∀ (st : CacheState) (conn : Option Store) (execOK : Bool) (idx : ℕ)
       (inp : EditInputs),
      (data_save_changes st conn execOK idx inp).2.2 ≠ UpdateOutcome.success →
      (data_save_changes st conn execOK idx inp).1 = st) ∧
    (∀ (recs : List MainRecord) (idx : ℕ) (inp : MainEditInputs) (f : Dec)
       (orig : MainRecord) (diskOK : Bool) (disk0 : Option (List MainRecord)),
      pyFloatVal inp.factor = some f →
      recs.get? idx = some orig →
      (main_save_changes_handler recs idx inp diskOK disk0).1 =
        recs.set idx (mainUpdatedRecord orig f inp)) := by
  constructor
  · intro st conn execOK idx inp hne
    rcases heq : data_save_changes st conn execOK idx inp with ⟨st2, conn2, out⟩
    rw [heq] at hne
    simp only [ne_eq] at hne
    show st2 = st
    unfold data_save_changes at heq
    split at heq
    · simp at heq
      exact heq.1.symm
    case _ r0 hget =>
      split at heq
      · simp at heq
        exact heq.1.symm
      case _ f0 hf0 =>
        split at heq
        · simp at heq
          exact heq.1.symm
        case _ store =>
          simp only [] at heq
          split at heq
          case _ v t hv ht =>
            simp at heq
            exact absurd heq.2.2.symm hne
          case _ hvt =>
            simp at heq
            exact heq.1.symm
  · intro recs idx inp f orig diskOK disk0 hf hget
    unfold main_save_changes_handler main_save_changes
    rw [hf, hget]

/-- Witness for C7 amended: a concrete failed data.py update keeps the old
cache, and a concrete main.py update with a failed disk write holds the new
values in memory. -/
theorem update_rollback_policy_witness :
    ((data_save_changes
      ⟨[⟨"u@x", "2025-03-07", "March", "2025", "C-49", "Scope1", "Fuel",
        "Diesel", "2.5", "100", "250.00", "", "doc.pdf", 1⟩], 2⟩ none true 0
      ⟨"C-49", "April", "2025", "Scope1", "Fuel", "Diesel", "100", "", "doc.pdf"⟩).1 =
      ⟨[⟨"u@x", "2025-03-07", "March", "2025", "C-49", "Scope1", "Fuel",
        "Diesel", "2.5", "100", "250.00", "", "doc.pdf", 1⟩], 2⟩) ∧
    ((main_save_changes_handler
      [⟨"u@x", "2025-03-07", "March", "C-49", "Scope1", "Fuel", "2.5", "100",
        "250.00", "doc.pdf", 1⟩] 0
      ⟨"April", "C-49", "Scope1", "Fuel", "2.5", "40", "doc.pdf"⟩ false none).1 =
      [mainUpdatedRecord
        ⟨"u@x", "2025-03-07", "March", "C-49", "Scope1", "Fuel", "2.5", "100",
          "250.00", "doc.pdf", 1⟩ ⟨25, 1⟩
        ⟨"April", "C-49", "Scope1", "Fuel", "2.5", "40", "doc.pdf"⟩]) :=
  ⟨update_rollback_policy.1
      ⟨[⟨"u@x", "2025-03-07", "March", "2025", "C-49", "Scope1", "Fuel",
        "Diesel", "2.5", "100", "250.00", "", "doc.pdf", 1⟩], 2⟩ none true 0
      ⟨"C-49", "April", "2025", "Scope1", "Fuel", "Diesel", "100", "", "doc.pdf"⟩
      (by decide),
   update_rollback_policy.2
      [⟨"u@x", "2025-03-07", "March", "C-49", "Scope1", "Fuel", "2.5", "100",
        "250.00", "doc.pdf", 1⟩] 0
      ⟨"April", "C-49", "Scope1", "Fuel", "2.5", "40", "doc.pdf"⟩ ⟨25, 1⟩
      ⟨"u@x", "2025-03-07", "March", "C-49", "Scope1", "Fuel", "2.5", "100",
        "250.00", "doc.pdf", 1⟩ false none (by decide) (by decide)⟩

/-! ### C8 development -/

theorem splitOnChar_ne_nil (c : Char) (l : List Char) : splitOnChar c l ≠ [] := by
  cases l with
  | nil => simp [splitOnChar]
  | cons x xs =>
    unfold splitOnChar
    rcases splitOnChar c xs with _ | ⟨h, t⟩
    · simp
    · by_cases hx : x = c
      · simp [hx]
      · simp [hx]

theorem unsplitChar_cons2 (c : Char) (x y : List Char) (t : List (List Char)) :
    unsplitChar c (x :: y :: t) = x ++ c :: unsplitChar c (y :: t) := rfl

theorem splitOnChar_cons (c x : Char) (xs : List Char) :
    splitOnChar c (x :: xs) =
      match splitOnChar c xs with
      | [] => [[]]
      | h :: t => if x = c then [] :: h :: t else (x :: h) :: t := rfl

theorem splitOnChar_unsplit (c : Char) (l : List Char) :
    unsplitChar c (splitOnChar c l) = l := by
  induction l with
  | nil => rfl
  | cons x xs ih =>
    rcases hsp : splitOnChar c xs with _ | ⟨h, t⟩
    · exact absurd hsp (splitOnChar_ne_nil c xs)
    · rw [hsp] at ih
      rw [splitOnChar_cons, hsp]
      show unsplitChar c (if x = c then [] :: h :: t else (x :: h) :: t) = x :: xs
      by_cases hx : x = c
      · rw [if_pos hx, unsplitChar_cons2, ih]
        subst hx
        rfl
      · rw [if_neg hx]
        cases t with
        | nil =>
          show x :: h = x :: xs
          rw [show unsplitChar c [h] = h from rfl] at ih
          rw [ih]
        | cons t1 t2 =>
          rw [unsplitChar_cons2] at ih
          show (x :: h) ++ c :: unsplitChar c (t1 :: t2) = x :: xs
          rw [List.cons_append, ih]

theorem splitOnChar_no_sep (c : Char) (l : List Char)
    (h : ∀ x ∈ l, x ≠ c) : splitOnChar c l = [l] := by
  induction l with
  | nil => rfl
  | cons x xs ih =>
    have hsp := ih (fun y hy => h y (by simp [hy]))
    rw [splitOnChar_cons, hsp]
    show (if x = c then [] :: [xs] else (x :: xs) :: []) = [x :: xs]
    rw [if_neg (h x (by simp))]

theorem splitOnChar_append (c : Char) (a r : List Char)
    (ha : ∀ x ∈ a, x ≠ c) :
    splitOnChar c (a ++ c :: r) = a :: splitOnChar c r := by
  induction a with
  | nil =>
    show splitOnChar c (c :: r) = [] :: splitOnChar c r
    rw [splitOnChar_cons]
    rcases hsp : splitOnChar c r with _ | ⟨h, t⟩
    · exact absurd hsp (splitOnChar_ne_nil c r)
    · show (if c = c then [] :: h :: t else (c :: h) :: t) = [] :: h :: t
      rw [if_pos rfl]
  | cons x a' ih =>
    have hsp := ih (fun y hy => ha y (by simp [hy]))
    show splitOnChar c (x :: (a' ++ c :: r)) = (x :: a') :: splitOnChar c r
    rw [splitOnChar_cons, hsp]
    show (if x = c then [] :: a' :: splitOnChar c r
      else (x :: a') :: splitOnChar c r) = (x :: a') :: splitOnChar c r
    rw [if_neg (ha x (by simp))]

theorem parseDate_eq (s : String) (ys ms ds : List Char)
    (hsplit : splitOnChar '-' s.data = [ys, ms, ds]) :
    parseDate s =
      (if (allDigits ys && ys.length = 4 && allDigits ms && 1 ≤ ms.length &&
          ms.length ≤ 2 && allDigits ds && 1 ≤ ds.length && ds.length ≤ 2) = true
       then
        (if (1 ≤ decval ys && 1 ≤ decval ms && decval ms ≤ 12 && 1 ≤ decval ds &&
            decval ds ≤ daysInMonth (decval ys) (decval ms)) = true then
          some ⟨decval ys, decval ms, decval ds⟩
         else none)
       else none) := by
  unfold parseDate
  rw [hsplit]

theorem parseDate_spec (s : String) :
    (∃ dt, parseDate s = some dt) ↔ SpecCalendarDate s := by
  constructor
  · rintro ⟨dt, hp⟩
    unfold parseDate at hp
    split at hp
    case _ ys ms ds hsplit =>
      split at hp
      case isTrue hguard =>
        simp only [] at hp
        split at hp
        case isTrue hval =>
          simp only [Bool.and_eq_true, decide_eq_true_eq, allDigits,
            List.all_eq_true, decide_eq_true_eq] at hguard hval
          obtain ⟨⟨⟨⟨⟨⟨⟨hys, hy4⟩, hms⟩, hm1⟩, hm2⟩, hds⟩, hd1⟩, hd2⟩ := hguard
          obtain ⟨⟨⟨⟨hy1, hm1'⟩, hm12⟩, hd1'⟩, hdm⟩ := hval
          refine ⟨ys, ms, ds, ?_, ?_, hy4, hm1, hm2, hd1, hd2, hy1, hm1', hm12,
            hd1', hdm⟩
          · have := splitOnChar_unsplit '-' s.data
            rw [hsplit] at this
            rw [← this]
            rfl
          · intro c hc
            rcases List.mem_append.1 hc with h1 | h1
            · rcases List.mem_append.1 h1 with h2 | h2
              · exact hys c h2
              · exact hms c h2
            · exact hds c h1
        case isFalse => simp at hp
      case isFalse => simp at hp
    case _ => simp at hp
  · rintro ⟨ys, ms, ds, hdata, hdig, hy4, hm1, hm2, hd1, hd2, hy1, hm12l, hm12,
      hd1l, hdm⟩
    have hysd : ∀ x ∈ ys, x ≠ '-' := fun x hx =>
      isDigit_ne_dash x (hdig x (by simp [hx]))
    have hmsd : ∀ x ∈ ms, x ≠ '-' := fun x hx =>
      isDigit_ne_dash x (hdig x (by simp [hx]))
    have hdsd : ∀ x ∈ ds, x ≠ '-' := fun x hx =>
      isDigit_ne_dash x (hdig x (by simp [hx]))
    have hsplit : splitOnChar '-' s.data = [ys, ms, ds] := by
      rw [hdata, splitOnChar_append '-' ys _ hysd,
        splitOnChar_append '-' ms _ hmsd, splitOnChar_no_sep '-' ds hdsd]
    refine ⟨⟨decval ys, decval ms, decval ds⟩, ?_⟩
    rw [parseDate_eq s ys ms ds hsplit]
    have hguard : (allDigits ys && ys.length = 4 &&
        allDigits ms && 1 ≤ ms.length && ms.length ≤ 2 &&
        allDigits ds && 1 ≤ ds.length && ds.length ≤ 2) = true := by
      simp only [Bool.and_eq_true, decide_eq_true_eq, allDigits,
        List.all_eq_true, decide_eq_true_eq]
      exact ⟨⟨⟨⟨⟨⟨⟨fun c hc => hdig c (by simp [hc]), hy4⟩,
        fun c hc => hdig c (by simp [hc])⟩, hm1⟩, hm2⟩,
        fun c hc => hdig c (by simp [hc])⟩, hd1⟩, hd2⟩
    have hval : (1 ≤ decval ys && 1 ≤ decval ms && decval ms ≤ 12 &&
        1 ≤ decval ds && decval ds ≤ daysInMonth (decval ys) (decval ms)) = true := by
      simp only [Bool.and_eq_true, decide_eq_true_eq]
      exact ⟨⟨⟨⟨hy1, hm12l⟩, hm12⟩, hd1l⟩, hdm⟩
    rw [if_pos hguard, if_pos hval]

/-- C8: `generate_unique_code` is a deterministic pure function of its four
arguments; on a parsing date it returns the unit, zero-padded day, month,
year, emission name and emission type joined by underscores; and it fails
(propagating strptime's ValueError, the InvalidDateFormat of the spec)
exactly when the date string is not a dash-separated calendar date with a
four-digit year and one-or-two-digit month and day (the `%Y-%m-%d` format,
whose `%m`/`%d` accept one or two digits). -/
theorem unique_code_ok :
    (∀ (u d n t : String) (dt : PyDate), parseDate d = some dt →
      generate_unique_code u d n t =
        some (u ++ "_" ++ (⟨padZeros 2 dt.day⟩ : String) ++ "_" ++
          (⟨padZeros 2 dt.month⟩ : String) ++ "_" ++ natDec dt.year ++ "_" ++
          n ++ "_" ++ t)) ∧
    (∀ u d n t : String,
      generate_unique_code u d n t = none ↔ ¬ SpecCalendarDate d) := by
  constructor
  · intro u d n t dt hp
    unfold generate_unique_code
    rw [hp]
    rfl
  · intro u d n t
    unfold generate_unique_code
    rcases hp : parseDate d with _ | dt
    · simp only [true_iff]
      intro hspec
      rcases (parseDate_spec d).2 hspec with ⟨dt, hdt⟩
      rw [hp] at hdt
      cases hdt
    · simp only [reduceCtorEq, false_iff, not_not]
      exact (parseDate_spec d).1 ⟨dt, hp⟩

/-- Witness for C8: the scenario date `2025-03-07` for unit C-49 yields
`C-49_07_03_2025_Fuel_Diesel`, and a malformed date is rejected. -/
theorem unique_code_ok_witness :
    generate_unique_code "C-49" "2025-03-07" "Fuel" "Diesel" =
      some ("C-49" ++ "_" ++ (⟨padZeros 2 7⟩ : String) ++ "_" ++
        (⟨padZeros 2 3⟩ : String) ++ "_" ++ natDec 2025 ++ "_" ++
        "Fuel" ++ "_" ++ "Diesel") :=
  unique_code_ok.1 "C-49" "2025-03-07" "Fuel" "Diesel" ⟨2025, 3, 7⟩ (by decide)

/-! ### C3 development -/

theorem natDec_length_pos (k : ℕ) : 1 ≤ (natDec k).length := by
  show 1 ≤ (natDecL k).length
  have := natDecL_ne_nil k
  cases h : natDecL k with
  | nil => exact absurd h this
  | cons a t => simp

theorem candPath_inj (folder code ext : String) (j k : ℕ) (_hj : 1 ≤ j)
    (_hk : 1 ≤ k) (h : candPath folder code ext j = candPath folder code ext k) :
    j = k := by
  unfold candPath at h
  by_cases hj1 : j = 1 <;> by_cases hk1 : k = 1
  · rw [hj1, hk1]
  · exfalso
    rw [if_pos hj1, if_neg hk1] at h
    have hl := congrArg String.length h
    simp only [String.length_append] at hl
    have h2 : String.length "_v" = 2 := by decide
    have h3 := natDec_length_pos k
    omega
  · exfalso
    rw [if_neg hj1, if_pos hk1] at h
    have hl := congrArg String.length h
    simp only [String.length_append] at hl
    have h2 : String.length "_v" = 2 := by decide
    have h3 := natDec_length_pos j
    omega
  · rw [if_neg hj1, if_neg hk1] at h
    have hd := congrArg String.data h
    simp only [String.data_append] at hd
    have hcl := List.append_cancel_right hd
    have hcl2 := List.append_cancel_left hcl
    have hnd : natDecL j = natDecL k := hcl2
    calc j = decval (natDecL j) := (decval_natDecL j).symm
      _ = decval (natDecL k) := by rw [hnd]
      _ = k := decval_natDecL k

theorem exists_free_candidate (fs : List String) (folder code ext : String)
    (start : ℕ) (hstart : 1 ≤ start) :
    ∃ k < fs.length + 1, candPath folder code ext (start + k) ∉ fs := by
  by_contra hall
  push_neg at hall
  have hsub : (Finset.range (fs.length + 1)).image
      (fun k => candPath folder code ext (start + k)) ⊆ fs.toFinset := by
    intro x hx
    rw [Finset.mem_image] at hx
    rcases hx with ⟨k, hk, rfl⟩
    rw [Finset.mem_range] at hk
    rw [List.mem_toFinset]
    exact hall k hk
  have hcard := Finset.card_le_card hsub
  rw [Finset.card_image_of_injOn (fun a ha b hb hab => by
    rw [Finset.coe_range, Set.mem_Iio] at ha hb
    have := candPath_inj folder code ext (start + a) (start + b) (by omega)
      (by omega) hab
    omega)] at hcard
  rw [Finset.card_range] at hcard
  have := List.toFinset_card_le fs
  omega

theorem probeLoop_succ (fs : List String) (folder code ext : String) (f v : ℕ) :
    probeLoop fs folder code ext (f + 1) v =
      if candPath folder code ext v ∈ fs then
        probeLoop fs folder code ext f (v + 1)
      else v := rfl

theorem probeLoop_step (fs : List String) (folder code ext : String) (f v : ℕ)
    (h : candPath folder code ext v ∈ fs) :
    probeLoop fs folder code ext (f + 1) v = probeLoop fs folder code ext f (v + 1) := by
  rw [probeLoop_succ, if_pos h]

theorem probeLoop_stop (fs : List String) (folder code ext : String) (f v : ℕ)
    (h : candPath folder code ext v ∉ fs) :
    probeLoop fs folder code ext (f + 1) v = v := by
  rw [probeLoop_succ, if_neg h]

theorem probeLoop_spec (fs : List String) (folder code ext : String) :
    ∀ (fuel start : ℕ),
      (∃ k < fuel, candPath folder code ext (start + k) ∉ fs) →
      candPath folder code ext (probeLoop fs folder code ext fuel start) ∉ fs ∧
      start ≤ probeLoop fs folder code ext fuel start ∧
      ∀ j, start ≤ j → j < probeLoop fs folder code ext fuel start →
        candPath folder code ext j ∈ fs := by
  intro fuel
  induction fuel with
  | zero =>
    intro start h
    rcases h with ⟨k, hk, _⟩
    omega
  | succ fuel ih =>
    intro start h
    by_cases hc : candPath folder code ext start ∈ fs
    · rw [probeLoop_step fs folder code ext fuel start hc]
      rcases h with ⟨k, hk, hfree⟩
      have hk0 : k ≠ 0 := by
        intro e
        subst e
        exact hfree (by simpa using hc)
      have h' : ∃ k' < fuel, candPath folder code ext (start + 1 + k') ∉ fs := by
        refine ⟨k - 1, by omega, ?_⟩
        have he : start + 1 + (k - 1) = start + k := by omega
        rw [he]
        exact hfree
      rcases ih (start + 1) h' with ⟨h1, h2, h3⟩
      refine ⟨h1, by omega, ?_⟩
      intro j hj1 hj2
      by_cases hjs : j = start
      · subst hjs
        exact hc
      · exact h3 j (by omega) hj2
    · rw [probeLoop_stop fs folder code ext fuel start hc]
      refine ⟨hc, le_refl _, ?_⟩
      intro j hj1 hj2
      omega

theorem save_document_eq (fs : List String)
    (base fp u d en et up ro : String) (dt : PyDate)
    (hp : parseDate d = some dt) :
    save_document fs base fp u d en et up ro =
      some ({ unique_code := uniqueCodeOf u dt en et,
              file_path := candPath (storagePathOf base u dt)
                (uniqueCodeOf u dt en et) (splitextExt fp)
                (probeLoop fs (storagePathOf base u dt)
                  (uniqueCodeOf u dt en et) (splitextExt fp) (fs.length + 1) 1),
              uploader := up, role := ro, unit_name := u, upload_date := d,
              emission_name := en, emission_type := et,
              file_status := "Stored Locally",
              version := probeLoop fs (storagePathOf base u dt)
                (uniqueCodeOf u dt en et) (splitextExt fp) (fs.length + 1) 1 },
            candPath (storagePathOf base u dt) (uniqueCodeOf u dt en et)
              (splitextExt fp)
              (probeLoop fs (storagePathOf base u dt)
                (uniqueCodeOf u dt en et) (splitextExt fp) (fs.length + 1) 1)
              :: fs) := by
  unfold save_document
  rw [hp]

/-- C3: `save_document` never overwrites.  (i) Any successful save stores at
the first free candidate path: the stored path is `candPath` at the returned
version, it is not on disk, every candidate strictly below the version was
occupied, a free base path forces version 1, and the filesystem gains
exactly the stored path.  (ii) Two saves with identical
(unit, date, emission_name, emission_type) and the same extension yield two
distinct stored paths, the first at the base name with version 1, the
second ending in `_v2<ext>` with version 2. -/
theorem save_document_versioning :
    (∀ (fs : List String) (base fp u d en et up ro : String) (m : DocMeta)
       (fs' : List String),
      save_document fs base fp u d en et up ro = some (m, fs') →
      ∃ dt, parseDate d = some dt ∧
        (m.file_path = candPath (storagePathOf base u dt)
          (uniqueCodeOf u dt en et) (splitextExt fp) m.version ∧
         m.file_path ∉ fs ∧ 1 ≤ m.version ∧
         (∀ j, 1 ≤ j → j < m.version →
           candPath (storagePathOf base u dt) (uniqueCodeOf u dt en et)
             (splitextExt fp) j ∈ fs) ∧
         (candPath (storagePathOf base u dt) (uniqueCodeOf u dt en et)
             (splitextExt fp) 1 ∉ fs → m.version = 1) ∧
         fs' = m.file_path :: fs)) ∧
    (∀ (fs : List String) (base fp1 fp2 u d en et up ro : String) (dt : PyDate),
      parseDate d = some dt →
      splitextExt fp1 = splitextExt fp2 →
      candPath (storagePathOf base u dt) (uniqueCodeOf u dt en et)
        (splitextExt fp1) 1 ∉ fs →
      candPath (storagePathOf base u dt) (uniqueCodeOf u dt en et)
        (splitextExt fp1) 2 ∉ fs →
      ∃ m1 fs1 m2 fs2,
        save_document fs base fp1 u d en et up ro = some (m1, fs1) ∧
        save_document fs1 base fp2 u d en et up ro = some (m2, fs2) ∧
        m1.version = 1 ∧ m2.version = 2 ∧ m1.file_path ≠ m2.file_path ∧
        m2.file_path = storagePathOf base u dt ++ "/" ++
          uniqueCodeOf u dt en et ++ "_v" ++ natDec 2 ++ splitextExt fp2) := by
  constructor
  · intro fs base fp u d en et up ro m fs' h
    unfold save_document at h
    rcases hp : parseDate d with _ | dt
    · rw [hp] at h
      cases h
    · rw [hp] at h
      refine ⟨dt, rfl, ?_⟩
      have hspec := probeLoop_spec fs (storagePathOf base u dt)
        (uniqueCodeOf u dt en et) (splitextExt fp) (fs.length + 1) 1
        (exists_free_candidate fs _ _ _ 1 (le_refl 1))
      simp only [Option.some_inj, Prod.mk.injEq] at h
      rcases h with ⟨hm, hfs'⟩
      subst hm
      refine ⟨rfl, hspec.1, hspec.2.1, hspec.2.2, ?_, hfs'.symm⟩
      intro hfree
      by_contra hne
      have h2 : 2 ≤ probeLoop fs (storagePathOf base u dt)
          (uniqueCodeOf u dt en et) (splitextExt fp) (fs.length + 1) 1 := by
        have := hspec.2.1
        simp only at hne
        omega
      exact hfree (hspec.2.2 1 (le_refl 1) (by omega))
  · intro fs base fp1 fp2 u d en et up ro dt hp hext h1 h2
    have hv1 : probeLoop fs (storagePathOf base u dt) (uniqueCodeOf u dt en et)
        (splitextExt fp1) (fs.length + 1) 1 = 1 :=
      probeLoop_stop fs _ _ _ fs.length 1 h1
    have hsave1 := save_document_eq fs base fp1 u d en et up ro dt hp
    rw [hv1] at hsave1
    set c1 := candPath (storagePathOf base u dt) (uniqueCodeOf u dt en et)
      (splitextExt fp1) 1 with hc1
    set fs1 := c1 :: fs with hfs1
    have hmem1 : candPath (storagePathOf base u dt) (uniqueCodeOf u dt en et)
        (splitextExt fp2) 1 ∈ fs1 := by
      rw [← hext, hfs1]
      exact List.mem_cons_self c1 fs
    have hnm2 : candPath (storagePathOf base u dt) (uniqueCodeOf u dt en et)
        (splitextExt fp2) 2 ∉ fs1 := by
      rw [← hext, hfs1]
      intro hmem
      rcases List.mem_cons.1 hmem with he | he
      · have := candPath_inj (storagePathOf base u dt) (uniqueCodeOf u dt en et)
          (splitextExt fp1) 2 1 (by omega) (by omega) (by rw [he])
        omega
      · exact h2 he
    have hv2 : probeLoop fs1 (storagePathOf base u dt) (uniqueCodeOf u dt en et)
        (splitextExt fp2) (fs1.length + 1) 1 = 2 := by
      rw [probeLoop_step fs1 _ _ _ fs1.length 1 hmem1]
      have hlen : fs1.length = fs.length + 1 := by
        rw [hfs1]
        rfl
      rw [hlen]
      exact probeLoop_stop fs1 _ _ _ fs.length 2 hnm2
    have hsave2 := save_document_eq fs1 base fp2 u d en et up ro dt hp
    rw [hv2] at hsave2
    refine ⟨_, _, _, _, hsave1, hsave2, rfl, rfl, ?_, ?_⟩
    · show c1 ≠ candPath (storagePathOf base u dt) (uniqueCodeOf u dt en et)
        (splitextExt fp2) 2
      rw [hc1, ← hext]
      intro he
      have := candPath_inj (storagePathOf base u dt) (uniqueCodeOf u dt en et)
        (splitextExt fp1) 1 2 (by omega) (by omega) he
      omega
    · show candPath (storagePathOf base u dt) (uniqueCodeOf u dt en et)
        (splitextExt fp2) 2 = _
      unfold candPath
      rw [if_neg (by decide : ¬(2 = 1))]

/-- Witness for C3: concrete double upload of a Diesel receipt for unit
C-49 on 2025-03-07 to an empty document store. -/
theorem save_document_versioning_witness :
    ∃ m1 fs1 m2 fs2,
      save_document [] "docs" "x/a.pdf" "C-49" "2025-03-07" "Fuel" "Diesel"
        "u@x" "Admin" = some (m1, fs1) ∧
      save_document fs1 "docs" "y/b.pdf" "C-49" "2025-03-07" "Fuel" "Diesel"
        "u@x" "Admin" = some (m2, fs2) ∧
      m1.version = 1 ∧ m2.version = 2 ∧ m1.file_path ≠ m2.file_path ∧
      m2.file_path = storagePathOf "docs" "C-49" ⟨2025, 3, 7⟩ ++ "/" ++
        uniqueCodeOf "C-49" ⟨2025, 3, 7⟩ "Fuel" "Diesel" ++ "_v" ++ natDec 2 ++
        splitextExt "y/b.pdf" :=
  save_document_versioning.2 [] "docs" "x/a.pdf" "y/b.pdf" "C-49" "2025-03-07"
    "Fuel" "Diesel" "u@x" "Admin" ⟨2025, 3, 7⟩ (by decide) (by decide)
    (by decide) (by decide)

/-! ### C2 development -/

theorem insertRow_perm (row : DBRow) (l : List DBRow) :
    (insertRow row l).Perm (row :: l) := by
  induction l with
  | nil => exact List.Perm.refl _
  | cons x xs ih =>
    unfold insertRow
    by_cases h : rowLE row x
    · rw [if_pos h]
    · rw [if_neg h]
      exact (List.Perm.cons x ih).trans (List.Perm.swap row x xs)

theorem sortRows_perm (l : List DBRow) : (sortRows l).Perm l := by
  induction l with
  | nil => exact List.Perm.refl _
  | cons x xs ih =>
    unfold sortRows
    exact (insertRow_perm x (sortRows xs)).trans (List.Perm.cons x ih)

theorem save_emission_records_cons (r : EmissionRecord)
    (rest : List EmissionRecord) (store : Store) :
    save_emission_records (r :: rest) store =
      save_emission_records rest
        (match rowOfRecord store.identity r with
         | some row => ⟨store.rows ++ [row], store.identity + 1⟩
         | none => store) := rfl

theorem insertedRows_cons (i : ℕ) (r : EmissionRecord)
    (rest : List EmissionRecord) :
    insertedRows i (r :: rest) =
      match rowOfRecord i r with
      | some row => row :: insertedRows (i + 1) rest
      | none => insertedRows i rest := rfl

theorem save_emission_records_eq :
    ∀ (recs : List EmissionRecord) (rows : List DBRow) (i : ℕ),
      save_emission_records recs ⟨rows, i⟩ =
        ⟨rows ++ insertedRows i recs, i + (insertedRows i recs).length⟩ := by
  intro recs
  induction recs with
  | nil =>
    intro rows i
    show (⟨rows, i⟩ : Store) = ⟨rows ++ [], i + 0⟩
    simp
  | cons r rest ih =>
    intro rows i
    rw [save_emission_records_cons, insertedRows_cons]
    rcases hrow : rowOfRecord i r with _ | row
    · show save_emission_records rest ⟨rows, i⟩ = _
      rw [ih]
    · show save_emission_records rest ⟨rows ++ [row], i + 1⟩ = _
      rw [ih]
      show Store.mk _ _ = Store.mk _ _
      rw [Store.mk.injEq]
      constructor
      · rw [List.append_assoc, List.singleton_append]
      · rw [List.length_cons]
        omega

theorem rowOfRecord_isSome (i : ℕ) (r : EmissionRecord) :
    (rowOfRecord i r).isSome = recConvertible r := by
  unfold rowOfRecord recConvertible
  cases hp : parseDate r.entry_date <;>
    cases hf : pyFloatVal r.factor <;>
    cases hv : pyFloatVal r.value <;>
    cases ht : pyFloatVal r.total <;> simp

theorem insertedRows_length :
    ∀ (recs : List EmissionRecord) (i : ℕ),
      (∀ r ∈ recs, recConvertible r = true) →
      (insertedRows i recs).length = recs.length := by
  intro recs
  induction recs with
  | nil => intro i _; rfl
  | cons r rest ih =>
    intro i h
    rw [insertedRows_cons]
    have hc : (rowOfRecord i r).isSome = true := by
      rw [rowOfRecord_isSome]
      exact h r (by simp)
    rcases hrow : rowOfRecord i r with _ | row
    · rw [hrow] at hc
      simp at hc
    · simp only [List.length_cons]
      rw [ih (i + 1) (fun x hx => h x (by simp [hx]))]

theorem rowOfRecord_eq (i : ℕ) (r : EmissionRecord) (dt : PyDate) (f v t : Dec)
    (hdt : parseDate r.entry_date = some dt)
    (hf : pyFloatVal r.factor = some f) (hv : pyFloatVal r.value = some v)
    (ht : pyFloatVal r.total = some t) :
    rowOfRecord i r = some {
      email := r.email
      entry_date := dateStr dt
      month := r.month
      year := r.year
      company_unit := r.company_unit
      emission_category := r.emission_category
      emission_name := r.emission_name
      emission_type := r.emission_type
      factor := quant4man f
      value := quant4man v
      total := quant4man t
      remarks := r.remarks
      document := r.document
      record_id := i } := by
  unfold rowOfRecord
  rw [hdt, hf, hv, ht]

/-- C2 counterexample: appending one record with value "100" and factor 2.5
to an empty cache over an empty store and reloading does NOT reproduce the
same records: the pre-persist record has `record_id` 0, value "100" and
total "250.00", while the loaded one has `record_id` 1 (assigned by the
IDENTITY column, the insert omits record_id), value "100.0000" and total
"250.0000" (scale-4 re-rendering by the NUMERIC(18,4) columns). -/
theorem round_trip_not_identical :
    ((submitNewRecords ⟨"u@x", "2025-03-07", "March", "2025", "C-49"⟩
        [⟨"Diesel", ⟨25, 1⟩, "100", "", "doc.pdf"⟩] [] ⟨⟨71, 2⟩, "", "", ""⟩
        0).1.map (fun r => (r.record_id, r.value, r.total))) =
      [(0, "100", "250.00")] ∧
    ((submit_data_handler ⟨"u@x", "2025-03-07", "March", "2025", "C-49"⟩
        [⟨"Diesel", ⟨25, 1⟩, "100", "", "doc.pdf"⟩] [] ⟨⟨71, 2⟩, "", "", ""⟩
        ⟨[], 0⟩ ⟨[], 1⟩ true true).1.records.map
        (fun r => (r.record_id, r.value, r.total))) =
      [(1, "100.0000", "250.0000")] ∧
    ((0 : ℕ), ("100" : String), ("250.00" : String)) ≠ (1, "100.0000", "250.0000") := by
  refine ⟨by decide, by decide, by decide⟩

/-- C2 amended: a batch appended to an empty cache and persisted, then
reloaded, yields exactly the batch's records passed through the store: a
permutation of `roundTripped` (the `ORDER BY` of the load only reorders);
each round-tripped record keeps every textual field and the remarks and
document verbatim, while the date is re-rendered, the three numeric strings
are re-rendered at scale 4, and the `record_id` is freshly assigned by the
identity sequence; with every record convertible none is duplicated or lost
(counts agree).  The last conjunct shows `save_emission_records` re-inserts
the WHOLE list it is given after the store's existing rows, which is what
duplicates previously loaded records when the cache was not empty. -/
theorem round_trip_amended :
    (∀ (newRecs : List EmissionRecord) (i0 c : ℕ),
      ((load_emission_records (some (save_emission_records newRecs ⟨[], i0⟩))
        ⟨newRecs, c⟩).records).Perm (roundTripped i0 newRecs)) ∧
    (∀ (i : ℕ) (r : EmissionRecord) (dt : PyDate) (f v t : Dec),
      parseDate r.entry_date = some dt →
      pyFloatVal r.factor = some f → pyFloatVal r.value = some v →
      pyFloatVal r.total = some t →
      roundTripped i [r] = [{
        email := r.email
        entry_date := dateStr dt
        month := r.month
        year := r.year
        company_unit := r.company_unit
        emission_category := r.emission_category
        emission_name := r.emission_name
        emission_type := r.emission_type
        factor := fmtScale4 (quant4man f)
        value := fmtScale4 (quant4man v)
        total := fmtScale4 (quant4man t)
        remarks := r.remarks
        document := r.document
        record_id := i }]) ∧
    (∀ (recs : List EmissionRecord) (i : ℕ),
      (∀ r ∈ recs, recConvertible r = true) →
      (roundTripped i recs).length = recs.length) ∧
    (∀ (recs : List EmissionRecord) (store : Store),
      (save_emission_records recs store).rows =
        store.rows ++ insertedRows store.identity recs) := by
  refine ⟨?_, ?_, ?_, ?_⟩
  · intro newRecs i0 c
    rw [save_emission_records_eq newRecs [] i0]
    show ((sortRows ([] ++ insertedRows i0 newRecs)).map recordOfRow).Perm _
    rw [List.nil_append]
    exact List.Perm.map recordOfRow (sortRows_perm (insertedRows i0 newRecs))
  · intro i r dt f v t hdt hf hv ht
    unfold roundTripped
    rw [insertedRows_cons, rowOfRecord_eq i r dt f v t hdt hf hv ht]
    rfl
  · intro recs i h
    unfold roundTripped
    rw [List.length_map]
    exact insertedRows_length recs i h
  · intro recs store
    rcases store with ⟨rows, i⟩
    rw [save_emission_records_eq recs rows i]

/-- Witness for C2 amended: the concrete one-record batch round-trips to
the explicitly re-rendered record. -/
theorem round_trip_amended_witness :
    roundTripped 1 [⟨"u@x", "2025-03-07", "March", "2025", "C-49", "Scope1",
      "Fuel", "Diesel", "2.5", "100", "250.00", "", "doc.pdf", 0⟩] =
    [{
      email := "u@x"
      entry_date := dateStr ⟨2025, 3, 7⟩
      month := "March"
      year := "2025"
      company_unit := "C-49"
      emission_category := "Scope1"
      emission_name := "Fuel"
      emission_type := "Diesel"
      factor := fmtScale4 (quant4man ⟨25, 1⟩)
      value := fmtScale4 (quant4man ⟨100, 0⟩)
      total := fmtScale4 (quant4man ⟨25000, 2⟩)
      remarks := ""
      document := "doc.pdf"
      record_id := 1 }] :=
  round_trip_amended.2.1 1
    ⟨"u@x", "2025-03-07", "March", "2025", "C-49", "Scope1", "Fuel", "Diesel",
      "2.5", "100", "250.00", "", "doc.pdf", 0⟩ ⟨2025, 3, 7⟩ ⟨25, 1⟩ ⟨100, 0⟩
    ⟨25000, 2⟩ (by decide) (by decide) (by decide) (by decide)

/-! ### C4 development -/

theorem foldl_max_init (l : List ℕ) : ∀ a : ℕ, a ≤ l.foldl Nat.max a := by
  induction l with
  | nil => intro a; exact Nat.le_refl a
  | cons x xs ih =>
    intro a
    exact le_trans (Nat.le_max_left a x) (ih (Nat.max a x))

theorem foldl_max_mem (l : List ℕ) : ∀ (a x : ℕ), x ∈ l → x ≤ l.foldl Nat.max a := by
  induction l with
  | nil => intro a x h; exact absurd h (List.not_mem_nil x)
  | cons y ys ih =>
    intro a x h
    rcases List.mem_cons.1 h with h1 | h1
    · subst h1
      exact le_trans (Nat.le_max_right a x) (foldl_max_init ys (Nat.max a x))
    · exact ih (Nat.max a y) x h1

theorem le_maxId (recs : List EmissionRecord) (r : EmissionRecord)
    (h : r ∈ recs) : r.record_id ≤ maxId recs :=
  foldl_max_mem _ 0 _ (List.mem_map_of_mem (fun r => r.record_id) h)

theorem isEmpty_false_of_mem (l : List EmissionRecord) (r : EmissionRecord)
    (h : r ∈ l) : l.isEmpty = false := by
  cases l with
  | nil => exact absurd h (List.not_mem_nil r)
  | cons x xs => rfl

theorem load_some_eq (s : Store) (st : CacheState) :
    load_emission_records (some s) st =
      ⟨(sortRows s.rows).map recordOfRow,
       if ((sortRows s.rows).map recordOfRow).isEmpty then st.counter
       else maxId ((sortRows s.rows).map recordOfRow) + 1⟩ := rfl

theorem idsOK_extend (st : CacheState) (newRecs : List EmissionRecord)
    (c2 : ℕ) (h : IdsOK st)
    (hnd : (newRecs.map (fun r => r.record_id)).Nodup)
    (hb : ∀ r ∈ newRecs, st.counter ≤ r.record_id ∧ r.record_id < c2)
    (hc : st.counter ≤ c2) :
    IdsOK ⟨st.records ++ newRecs, c2⟩ := by
  obtain ⟨hnd0, hlt0⟩ := h
  constructor
  · show ((st.records ++ newRecs).map (fun r => r.record_id)).Nodup
    rw [List.map_append]
    refine hnd0.append hnd ?_
    intro a ha hbm
    rcases List.mem_map.1 ha with ⟨r, hr, hra⟩
    rcases List.mem_map.1 hbm with ⟨r2, hr2, hra2⟩
    have h1 : a < st.counter := by
      have := hlt0 r hr
      omega
    have h2 : st.counter ≤ a := by
      have := (hb r2 hr2).1
      omega
    omega
  · intro r hr
    rcases List.mem_append.1 hr with h1 | h1
    · exact lt_of_lt_of_le (hlt0 r h1) hc
    · exact (hb r h1).2

theorem buildFuelLoop_cons (ctx : SubmitCtx) (cat ename : String)
    (ft : FuelInput) (rest : List FuelInput) (c : ℕ) :
    buildFuelLoop ctx cat ename (ft :: rest) c =
      if stripStr ft.amount ≠ "" then
        (mkFuelRecord ctx cat ename ft c ::
           (buildFuelLoop ctx cat ename rest (c + 1)).1,
         (buildFuelLoop ctx cat ename rest (c + 1)).2)
      else buildFuelLoop ctx cat ename rest c := rfl

theorem buildFuelLoop_ids (ctx : SubmitCtx) (cat ename : String) :
    ∀ (l : List FuelInput) (c : ℕ),
      c ≤ (buildFuelLoop ctx cat ename l c).2 ∧
      (∀ r ∈ (buildFuelLoop ctx cat ename l c).1,
        c ≤ r.record_id ∧ r.record_id < (buildFuelLoop ctx cat ename l c).2) ∧
      ((buildFuelLoop ctx cat ename l c).1.map (fun r => r.record_id)).Nodup := by
  intro l
  induction l with
  | nil =>
    intro c
    exact ⟨Nat.le_refl c, fun r h => absurd h (List.not_mem_nil r),
      List.nodup_nil⟩
  | cons ft rest ih =>
    intro c
    by_cases hs : stripStr ft.amount ≠ ""
    · obtain ⟨ih1, ih2, ih3⟩ := ih (c + 1)
      rw [buildFuelLoop_cons, if_pos hs]
      refine ⟨le_trans (Nat.le_succ c) ih1, ?_, ?_⟩
      · intro r hr
        rcases List.mem_cons.1 hr with h1 | h1
        · subst h1
          exact ⟨Nat.le_refl c, lt_of_lt_of_le (Nat.lt_succ_self c) ih1⟩
        · obtain ⟨hl, hu⟩ := ih2 r h1
          exact ⟨le_trans (Nat.le_succ c) hl, hu⟩
      · rw [List.map_cons]
        refine List.nodup_cons.2 ⟨?_, ih3⟩
        intro hmem
        rcases List.mem_map.1 hmem with ⟨r, hr, hrid⟩
        have := (ih2 r hr).1
        have hcc : (mkFuelRecord ctx cat ename ft c).record_id = c := rfl
        omega
    · rw [buildFuelLoop_cons, if_neg hs]
      exact ih c

theorem submitNewRecords_ids (ctx : SubmitCtx) (fuels refrigs : List FuelInput)
    (elec : ElecInput) (c : ℕ) :
    c ≤ (submitNewRecords ctx fuels refrigs elec c).2 ∧
    (∀ r ∈ (submitNewRecords ctx fuels refrigs elec c).1,
      c ≤ r.record_id ∧ r.record_id < (submitNewRecords ctx fuels refrigs elec c).2) ∧
    ((submitNewRecords ctx fuels refrigs elec c).1.map
      (fun r => r.record_id)).Nodup := by
  obtain ⟨h1a, h1b, h1c⟩ := buildFuelLoop_ids ctx "Scope1" "Fuel" fuels c
  obtain ⟨h2a, h2b, h2c⟩ := buildFuelLoop_ids ctx "Scope1" "Refrigerants" refrigs
    (buildFuelLoop ctx "Scope1" "Fuel" fuels c).2
  unfold submitNewRecords
  simp only []
  by_cases hs : stripStr elec.amount ≠ ""
  · rw [if_pos hs]
    refine ⟨?_, ?_, ?_⟩
    · exact le_trans h1a (le_trans h2a (Nat.le_succ _))
    · intro r hr
      rcases List.mem_append.1 hr with hin | hin
      · obtain ⟨hl, hu⟩ := h1b r hin
        exact ⟨hl, lt_of_lt_of_le hu (le_trans h2a (Nat.le_succ _))⟩
      · rcases List.mem_append.1 hin with hin2 | hin2
        · obtain ⟨hl, hu⟩ := h2b r hin2
          exact ⟨le_trans h1a hl, lt_of_lt_of_le hu (Nat.le_succ _)⟩
        · rw [List.mem_singleton] at hin2
          subst hin2
          have hcc : (mkElecRecord ctx elec
              (buildFuelLoop ctx "Scope1" "Refrigerants" refrigs
                (buildFuelLoop ctx "Scope1" "Fuel" fuels c).2).2).record_id =
              (buildFuelLoop ctx "Scope1" "Refrigerants" refrigs
                (buildFuelLoop ctx "Scope1" "Fuel" fuels c).2).2 := rfl
          rw [hcc]
          exact ⟨le_trans h1a h2a, Nat.lt_succ_self _⟩
    · rw [List.map_append, List.map_append]
      refine h1c.append (h2c.append ?_ ?_) ?_
      · exact List.nodup_singleton _
      · intro a ha hbm
        rcases List.mem_map.1 ha with ⟨r, hr, hrid⟩
        rw [List.map_singleton, List.mem_singleton] at hbm
        have := (h2b r hr).2
        have hcc : (mkElecRecord ctx elec
            (buildFuelLoop ctx "Scope1" "Refrigerants" refrigs
              (buildFuelLoop ctx "Scope1" "Fuel" fuels c).2).2).record_id =
            (buildFuelLoop ctx "Scope1" "Refrigerants" refrigs
              (buildFuelLoop ctx "Scope1" "Fuel" fuels c).2).2 := rfl
        rw [hcc] at hbm
        omega
      · intro a ha hbm
        rcases List.mem_map.1 ha with ⟨r, hr, hrid⟩
        have hu1 := (h1b r hr).2
        rcases List.mem_append.1 hbm with hbm2 | hbm2
        · rcases List.mem_map.1 hbm2 with ⟨r2, hr2, hrid2⟩
          have := (h2b r2 hr2).1
          omega
        · rw [List.map_singleton, List.mem_singleton] at hbm2
          have hcc : (mkElecRecord ctx elec
              (buildFuelLoop ctx "Scope1" "Refrigerants" refrigs
                (buildFuelLoop ctx "Scope1" "Fuel" fuels c).2).2).record_id =
              (buildFuelLoop ctx "Scope1" "Refrigerants" refrigs
                (buildFuelLoop ctx "Scope1" "Fuel" fuels c).2).2 := rfl
          rw [hcc] at hbm2
          have := le_trans h1a h2a
          omega
  · rw [if_neg hs]
    refine ⟨le_trans h1a h2a, ?_, ?_⟩
    · intro r hr
      rcases List.mem_append.1 hr with hin | hin
      · obtain ⟨hl, hu⟩ := h1b r hin
        exact ⟨hl, lt_of_lt_of_le hu h2a⟩
      · obtain ⟨hl, hu⟩ := h2b r hin
        exact ⟨le_trans h1a hl, hu⟩
    · rw [List.map_append]
      refine h1c.append h2c ?_
      intro a ha hbm
      rcases List.mem_map.1 ha with ⟨r, hr, hrid⟩
      rcases List.mem_map.1 hbm with ⟨r2, hr2, hrid2⟩
      have := (h1b r hr).2
      have := (h2b r2 hr2).1
      omega

theorem submit_result_cases (ctx : SubmitCtx) (fuels refrigs : List FuelInput)
    (elec : ElecInput) (st : CacheState) (store : Store) (saveOK : Bool) :
    (submit_data_handler ctx fuels refrigs elec st store saveOK false).1 = st ∨
    ∃ newRecs c2,
      (submit_data_handler ctx fuels refrigs elec st store saveOK false).1 =
        ⟨st.records ++ newRecs, c2⟩ ∧
      (newRecs.map (fun r => r.record_id)).Nodup ∧
      (∀ r ∈ newRecs, st.counter ≤ r.record_id ∧ r.record_id < c2) ∧
      st.counter ≤ c2 := by
  unfold submit_data_handler
  simp only []
  split
  · exact Or.inl rfl
  · split
    · exact Or.inl rfl
    · split
      · exact Or.inl rfl
      · refine Or.inr ⟨_, _, rfl, ?_, ?_, ?_⟩
        · exact (submitNewRecords_ids _ fuels refrigs elec st.counter).2.2
        · exact (submitNewRecords_ids _ fuels refrigs elec st.counter).2.1
        · exact (submitNewRecords_ids _ fuels refrigs elec st.counter).1

/-- C4 counterexample: with rows 1, 2, 3 in the table, record 3 is loaded
into the cache, deleted, and the table is refreshed (`refresh_table` calls
`load_emission_records`, which recomputes `record_id_counter` as
`max(remaining ids) + 1 = 3`); the next submission then assigns the
previously deleted `record_id` 3 to the new record — the id IS reused
within the process lifetime when a load occurs between the delete and the
append. -/
theorem id_reused_after_interleaved_load :
    (c4Loaded.records.map (fun r => r.record_id)) = [3, 2, 1] ∧
    (c4AfterDelete.1.records.map (fun r => r.record_id)) = [2, 1] ∧
    c4Reloaded.counter = 3 ∧
    (c4Submit.1.records.map (fun r => r.record_id)) = [2, 1, 3] := by
  refine ⟨by decide, by decide, by decide, by decide⟩

/-- C4 amended: `record_id` uniqueness does hold — loading from a table
with pairwise-distinct ids establishes the invariant `IdsOK` (distinct
cached ids, all below the counter), and both deletion and submission
preserve it — and a deleted id is never reassigned by a later append
PROVIDED no `load_emission_records` runs in between: after a delete the
counter is unchanged, so the new records of a subsequent submission all
receive ids at or above it, never the deleted id (which lay below it).
The no-reuse guarantee does not survive an interleaved load, which lowers
the counter to `max(remaining) + 1`. -/
theorem record_id_policy :
    (∀ (store : Store) (st : CacheState),
      (store.rows.map (fun row => row.record_id)).Nodup →
      IdsOK (load_emission_records (some store) st)) ∧
    (∀ (conn : Bool) (st : CacheState) (store : Store) (rid : ℕ),
      IdsOK st → IdsOK (delete_record conn st store rid).1) ∧
    (∀ (ctx : SubmitCtx) (fuels refrigs : List FuelInput) (elec : ElecInput)
      (st : CacheState) (store : Store) (saveOK : Bool),
      IdsOK st →
      IdsOK (submit_data_handler ctx fuels refrigs elec st store saveOK false).1) ∧
    (∀ (ctx : SubmitCtx) (fuels refrigs : List FuelInput) (elec : ElecInput)
      (st : CacheState) (store : Store) (rid : ℕ) (saveOK : Bool),
      IdsOK st →
      rid ∈ st.records.map (fun r => r.record_id) →
      rid ∉ (((submit_data_handler ctx fuels refrigs elec
          (delete_record true st store rid).1
          (delete_record true st store rid).2.1 saveOK false).1).records.map
          (fun r => r.record_id))) := by
  refine ⟨?_, ?_, ?_, ?_⟩
  · intro store st hnd
    rw [load_some_eq]
    constructor
    · show (((sortRows store.rows).map recordOfRow).map
        (fun r => r.record_id)).Nodup
      rw [List.map_map]
      have hperm := (sortRows_perm store.rows).map
        (fun row => (recordOfRow row).record_id)
      exact hperm.nodup_iff.2 hnd
    · intro r hr
      have hr' : r ∈ (sortRows store.rows).map recordOfRow := hr
      have hne : ¬(((sortRows store.rows).map recordOfRow).isEmpty = true) := by
        rw [isEmpty_false_of_mem _ r hr']
        exact Bool.false_ne_true
      show r.record_id <
        if ((sortRows store.rows).map recordOfRow).isEmpty then st.counter
        else maxId ((sortRows store.rows).map recordOfRow) + 1
      rw [if_neg hne]
      exact Nat.lt_succ_of_le (le_maxId _ r hr')
  · intro conn st store rid h
    obtain ⟨hnd, hlt⟩ := h
    cases conn with
    | false => exact ⟨hnd, hlt⟩
    | true =>
      constructor
      · show ((st.records.filter (fun r => r.record_id ≠ rid)).map
          (fun r => r.record_id)).Nodup
        exact List.Nodup.sublist
          ((List.filter_sublist st.records).map (fun r => r.record_id)) hnd
      · intro r hr
        exact hlt r (List.mem_of_mem_filter hr)
  · intro ctx fuels refrigs elec st store saveOK h
    rcases submit_result_cases ctx fuels refrigs elec st store saveOK with
      h0 | ⟨newRecs, c2, heq, hnd, hb, hc⟩
    · rw [h0]
      exact h
    · rw [heq]
      exact idsOK_extend st newRecs c2 h hnd hb hc
  · intro ctx fuels refrigs elec st store rid saveOK h hmem
    rcases List.mem_map.1 hmem with ⟨r0, hr0, hr0id⟩
    have hridlt : rid < st.counter := by
      have := h.2 r0 hr0
      omega
    have hDrec : (delete_record true st store rid).1.records =
        st.records.filter (fun r => r.record_id ≠ rid) := rfl
    have hDcnt : (delete_record true st store rid).1.counter = st.counter := rfl
    have hnotD : ∀ r ∈ (delete_record true st store rid).1.records,
        r.record_id ≠ rid := by
      intro r hr
      rw [hDrec] at hr
      exact of_decide_eq_true ((List.mem_filter.1 hr).2)
    rcases submit_result_cases ctx fuels refrigs elec
        (delete_record true st store rid).1
        (delete_record true st store rid).2.1 saveOK with
      h0 | ⟨newRecs, c2, heq, hnd, hb, hc⟩
    · rw [h0]
      intro hcontra
      rcases List.mem_map.1 hcontra with ⟨r, hr, hrid⟩
      exact hnotD r hr hrid
    · rw [heq]
      intro hcontra
      rcases List.mem_map.1 hcontra with ⟨r, hr, hrid⟩
      rcases List.mem_append.1 hr with h1 | h1
      · exact hnotD r h1 hrid
      · have := (hb r h1).1
        rw [hDcnt] at this
        omega

/-- Witness for C4 amended: in the concrete trace, submitting directly
after the delete of record 3 — without the interleaving reload — never
hands out id 3 again. -/
theorem record_id_policy_witness :
    3 ∉ ((submit_data_handler ⟨"u@x", "2025-03-07", "March", "2025", "C-49"⟩
        [⟨"Diesel", ⟨25, 1⟩, "100", "", "doc.pdf"⟩] [] ⟨⟨71, 2⟩, "", "", ""⟩
        (delete_record true c4Loaded c4Store 3).1
        (delete_record true c4Loaded c4Store 3).2.1 false false).1.records.map
        (fun r => r.record_id)) :=
  record_id_policy.2.2.2 ⟨"u@x", "2025-03-07", "March", "2025", "C-49"⟩
    [⟨"Diesel", ⟨25, 1⟩, "100", "", "doc.pdf"⟩] [] ⟨⟨71, 2⟩, "", "", ""⟩
    c4Loaded c4Store 3 false ⟨by decide, by decide⟩ (by decide)
